import Mathlib

/-!
Verification of the Cinemateket print-program service (`app.py`).

The Python source is shallowly embedded: pure helpers become Lean functions
over `String`/`List Char`; the network boundary (HTTP responses, parsed
DOM queries) becomes explicit input data; dictionaries become insertion
ordered association lists.  Machine-level details (sleeps, logging) are
noted in comments and not modelled.
-/

namespace Cinemateket

/-! ## Python-flavoured character and string primitives -/

/-- Python whitespace for `str.strip` / `\s`: space, tab, newline, carriage
return, vertical tab, form feed (the ASCII fragment actually exercised by
the scraped pages). -/
def isSpacePy (c : Char) : Bool :=
  c = ' ' || c = '\t' || c = '\n' || c = '\r' || c = '\x0b' || c = '\x0c'

/-- Python `str.lower` restricted to the alphabet this application handles:
ASCII letters plus the Danish letters Æ, Ø, Å. -/
def lowerDa (c : Char) : Char :=
  if c = 'Æ' then 'æ' else if c = 'Ø' then 'ø' else if c = 'Å' then 'å'
  else if 'A' ≤ c && c ≤ 'Z' then Char.ofNat (c.toNat + 32) else c

/-- Python `str.upper` on the same alphabet (used by `str.capitalize`). -/
def upperDa (c : Char) : Char :=
  if c = 'æ' then 'Æ' else if c = 'ø' then 'Ø' else if c = 'å' then 'Å'
  else if 'a' ≤ c && c ≤ 'z' then Char.ofNat (c.toNat - 32) else c

/-- Lowercase a whole string, Python `s.lower()`. -/
def lowerStr (s : String) : String :=
  String.mk (s.data.map lowerDa)

/-- Python `str.strip()` (no argument): drop leading and trailing
whitespace. -/
def pyStrip (s : String) : String :=
  String.mk (((s.data.dropWhile isSpacePy).reverse.dropWhile isSpacePy).reverse)

/-- Python `str.strip("/")`: drop leading and trailing slashes. -/
def stripSlash (s : String) : String :=
  String.mk (((s.data.dropWhile (· = '/')).reverse.dropWhile (· = '/')).reverse)

/-- Split a character list at every occurrence of characters satisfying `p`,
keeping empty fragments — the semantics of Python `str.split(sep)` for a
one-character separator, generalised to a class of separator characters. -/
def splitChar (p : Char → Bool) : List Char → List (List Char)
  | [] => [[]]
  | c :: cs =>
    if p c then [] :: splitChar p cs
    else
      match splitChar p cs with
      | [] => [[c]]
      | f :: fs => (c :: f) :: fs

/-- Drop the empty fragments of a split result except the final one:
splitting at every separator and then collapsing the internal empty
fragments yields exactly the split on maximal separator runs. -/
def dropInnerEmpty : List (List Char) → List (List Char)
  | [] => []
  | [f] => [f]
  | f :: rest => if f.isEmpty then dropInnerEmpty rest else f :: dropInnerEmpty rest

/-- Split on maximal runs of characters satisfying `p` — the semantics of
Python `re.split` with a `X+` character-class pattern (boundary empty
fragments are kept, internal ones are collapsed). -/
def splitRuns (p : Char → Bool) (cs : List Char) : List (List Char) :=
  match splitChar p cs with
  | [] => []
  | f :: rest => f :: dropInnerEmpty rest

/-- Python `str.split()` with no argument: split on whitespace runs and
drop all empty fragments. -/
def pyWords (s : String) : List String :=
  ((splitRuns isSpacePy s.data).map String.mk).filter (· ≠ "")

/-- Code-point lexicographic comparison on character lists — exactly
Python's `str` ordering (`<=`). -/
def lexLe : List Char → List Char → Bool
  | [], _ => true
  | _ :: _, [] => false
  | a :: as, b :: bs =>
    if a.toNat < b.toNat then true
    else if b.toNat < a.toNat then false
    else lexLe as bs

/-- Python `a <= b` on strings. -/
def strLe (a b : String) : Bool := lexLe a.data b.data

/-- Python `a < b` on strings. -/
def strLt (a b : String) : Bool := strLe a b && a ≠ b

theorem lexLe_total : ∀ a b : List Char, lexLe a b || lexLe b a := by
  intro a
  induction a with
  | nil => intro b; simp [lexLe]
  | cons x xs ih =>
    intro b
    cases b with
    | nil => simp [lexLe]
    | cons y ys =>
      simp only [lexLe]
      split_ifs <;> first | simpa using ih ys | omega

theorem lexLe_trans : ∀ a b c : List Char,
    lexLe a b = true → lexLe b c = true → lexLe a c = true := by
  intro a
  induction a with
  | nil => intro b c _ _; simp [lexLe]
  | cons x xs ih =>
    intro b c hab hbc
    cases b with
    | nil => simp [lexLe] at hab
    | cons y ys =>
      cases c with
      | nil => simp [lexLe] at hbc
      | cons z zs =>
        simp only [lexLe] at hab hbc ⊢
        split_ifs at hab hbc ⊢ <;>
          first
            | rfl
            | omega
            | simp at hab
            | simp at hbc
            | exact ih ys zs hab hbc

theorem lexLe_antisymm : ∀ a b : List Char,
    lexLe a b = true → lexLe b a = true → a = b := by
  intro a
  induction a with
  | nil =>
    intro b _ hba
    cases b with
    | nil => rfl
    | cons y ys => simp [lexLe] at hba
  | cons x xs ih =>
    intro b hab hba
    cases b with
    | nil => simp [lexLe] at hab
    | cons y ys =>
      simp only [lexLe] at hab hba
      split_ifs at hab hba <;>
        first
          | omega
          | simp at hab
          | simp at hba
          | (have hx : x = y := by
               have hv : x.val = y.val := UInt32.eq_of_val_eq (Fin.ext (show x.toNat = y.toNat by omega))
               exact Char.eq_of_val_eq hv
             rw [hx, ih ys hab hba])

theorem strLe_total (a b : String) : strLe a b || strLe b a := lexLe_total a.data b.data

theorem strLe_trans (a b c : String) (h1 : strLe a b = true) (h2 : strLe b c = true) :
    strLe a c = true := lexLe_trans a.data b.data c.data h1 h2

theorem strLe_antisymm (a b : String) (h1 : strLe a b = true) (h2 : strLe b a = true) :
    a = b := by
  cases a; cases b
  exact congrArg String.mk (lexLe_antisymm _ _ h1 h2)

/-! ## Sorting: Python's stable `list.sort` / `sorted`

A structural stable insertion sort (equal elements keep their original
relative order, as Python guarantees), kernel-computable. -/

/-- Insert `x` before the first element `y` with `le x y`. -/
def insertLe {α : Type} (le : α → α → Bool) (x : α) : List α → List α
  | [] => [x]
  | y :: ys => if le x y then x :: y :: ys else y :: insertLe le x ys

/-- Stable insertion sort by the boolean relation `le`. -/
def pySort {α : Type} (le : α → α → Bool) : List α → List α
  | [] => []
  | x :: xs => insertLe le x (pySort le xs)

theorem insertLe_perm {α : Type} (le : α → α → Bool) (x : α) (l : List α) :
    List.Perm (insertLe le x l) (x :: l) := by
  induction l with
  | nil => simp [insertLe]
  | cons y ys ih =>
    simp only [insertLe]
    by_cases h : le x y
    · simp [h]
    · simp only [if_neg h]
      exact List.Perm.trans (List.Perm.cons y ih) (List.Perm.swap x y ys)

theorem pySort_perm {α : Type} (le : α → α → Bool) (l : List α) :
    List.Perm (pySort le l) l := by
  induction l with
  | nil => simp [pySort]
  | cons x xs ih =>
    exact List.Perm.trans (insertLe_perm le x (pySort le xs)) (List.Perm.cons x ih)

theorem mem_pySort {α : Type} (le : α → α → Bool) (l : List α) (a : α) :
    a ∈ pySort le l ↔ a ∈ l :=
  (pySort_perm le l).mem_iff

theorem insertLe_pairwise {α : Type} (le : α → α → Bool)
    (htot : ∀ a b, le a b || le b a)
    (htrans : ∀ a b c, le a b = true → le b c = true → le a c = true)
    (x : α) (l : List α)
    (hl : List.Pairwise (fun a b => le a b = true) l) :
    List.Pairwise (fun a b => le a b = true) (insertLe le x l) := by
  induction l with
  | nil => simp [insertLe]
  | cons y ys ih =>
    rcases List.pairwise_cons.1 hl with ⟨hy, hys⟩
    simp only [insertLe]
    by_cases h : le x y
    · simp only [if_pos h]
      refine List.Pairwise.cons ?_ hl
      intro b hb
      rcases List.mem_cons.1 hb with rfl | hb
      · exact h
      · exact htrans x y b h (hy b hb)
    · simp only [if_neg h]
      have hyx : le y x = true := by
        rcases (Bool.or_eq_true _ _).mp (htot x y) with hxy | hyx
        · exact absurd hxy h
        · exact hyx
      refine List.Pairwise.cons ?_ (ih hys)
      intro b hb
      rcases List.mem_cons.1 ((insertLe_perm le x ys).mem_iff.1 hb) with rfl | hb
      · exact hyx
      · exact hy b hb

theorem pySort_pairwise {α : Type} (le : α → α → Bool)
    (htot : ∀ a b, le a b || le b a)
    (htrans : ∀ a b c, le a b = true → le b c = true → le a c = true)
    (l : List α) :
    List.Pairwise (fun a b => le a b = true) (pySort le l) := by
  induction l with
  | nil => simp [pySort]
  | cons x xs ih => exact insertLe_pairwise le htot htrans x (pySort le xs) ih

/-! ## Association lists: insertion-ordered Python dicts -/

/-- Lookup in an association list (first match). -/
def alookup {α β : Type} [DecidableEq α] (k : α) : List (α × β) → Option β
  | [] => none
  | (k', v) :: rest => if k = k' then some v else alookup k rest

/-- Python `d[k] = v`: replace the value in place if the key is present,
else append at the end (dicts preserve insertion order). -/
def dinsert {α β : Type} [DecidableEq α] (k : α) (v : β) : List (α × β) → List (α × β)
  | [] => [(k, v)]
  | (k', v') :: rest =>
    if k = k' then (k', v) :: rest else (k', v') :: dinsert k v rest

/-- Python `d.setdefault(k, []).append(e)`. -/
def dappend {α β : Type} [DecidableEq α] (k : α) (e : β) : List (α × List β) → List (α × List β)
  | [] => [(k, [e])]
  | (k', es) :: rest =>
    if k = k' then (k', es ++ [e]) :: rest else (k', es) :: dappend k e rest

/-- Python `d[k] = f(d[k])` for a key known to be present. -/
def updAssoc {α β : Type} [DecidableEq α] (k : α) (f : β → β) : List (α × β) → List (α × β)
  | [] => []
  | (k', v) :: rest =>
    if k = k' then (k', f v) :: rest else (k', v) :: updAssoc k f rest

theorem alookup_mem {α β : Type} [DecidableEq α] (k : α) (l : List (α × β)) (v : β)
    (h : alookup k l = some v) : (k, v) ∈ l := by
  induction l with
  | nil => simp [alookup] at h
  | cons p rest ih =>
    obtain ⟨k', v'⟩ := p
    simp only [alookup] at h
    by_cases hk : k = k'
    · simp [hk] at h
      simp [hk, h]
    · simp [hk] at h
      exact List.mem_cons_of_mem _ (ih h)

theorem dinsert_forall {α β : Type} [DecidableEq α] (P : α × β → Prop) (k : α) (v : β)
    (l : List (α × β)) (hl : ∀ p ∈ l, P p) (hkv : P (k, v)) :
    ∀ p ∈ dinsert k v l, P p := by
  induction l with
  | nil => simpa [dinsert] using hkv
  | cons q rest ih =>
    obtain ⟨k', v'⟩ := q
    simp only [dinsert]
    by_cases hk : k = k'
    · subst hk
      simp only [if_pos rfl]
      intro p hp
      rcases List.mem_cons.1 hp with h | h
      · subst h; exact hkv
      · exact hl _ (List.mem_cons_of_mem _ h)
    · simp only [if_neg hk]
      intro p hp
      rcases List.mem_cons.1 hp with h | h
      · subst h; exact hl _ (List.mem_cons_self _ _)
      · exact ih (fun q hq => hl _ (List.mem_cons_of_mem _ hq)) _ h

/-! ## URLs and the allowlist (`app.py` lines 19, 59–70)

`urlparse` is a library collaborator: a URL enters the model already split
into scheme, netloc and path, which is exactly the triple `allowed`
inspects. -/

/-- A parsed absolute URL, the output of `urllib.parse.urlparse` restricted
to the three components the application reads. -/
structure Url where
  scheme : String
  netloc : String
  path : String
deriving DecidableEq, Repr

/-- Python `s.startswith(pre)` (character-list prefix test). -/
def pyStartsWith (s pre : String) : Bool :=
  pre.data.isPrefixOf s.data

/-- `ALLOWED_HOSTS = {"www.dfi.dk", "dfi.dk"}`. -/
def ALLOWED_HOSTS : List String := ["www.dfi.dk", "dfi.dk"]

/-- `allowed(url)` from `app.py`: scheme is http/https, netloc is an
allowlisted host, and the path starts with `/cinemateket/`. -/
def allowed (u : Url) : Bool :=
  (u.scheme = "http" || u.scheme = "https")
    && ALLOWED_HOSTS.contains u.netloc
    && pyStartsWith u.path ("/cinemateket/")

/-! ## The fetcher `get_soup` (`app.py` lines 75–91)

The network is modelled as a function from attempt index to outcome: a
transport-level error (`requests.RequestException`) or a response with a
status code and a body.  `_bs`/BeautifulSoup parsing is a collaborator, so
the model returns the body text handed to the parser together with the
number of `session.get` calls performed.  `time.sleep` is not modelled. -/

/-- Outcome of one `session.get` call. -/
inductive Attempt where
  | err : Attempt
  | resp (status : Nat) (text : String) : Attempt

/-- The retryable status codes of `get_soup`. -/
def retryStatus (s : Nat) : Bool :=
  s = 429 || s = 500 || s = 502 || s = 503 || s = 504

/-- An attempt on which the loop continues (transport error or retryable
status). -/
def retriesOn : Attempt → Bool
  | .err => true
  | .resp s _ => retryStatus s

/-- Body text of an attempt, empty for a transport error (the exception is
raised before `r.text` is read, so `last_text` is not updated). -/
def attemptText : Attempt → String
  | .err => ""
  | .resp _ t => t

/-- The `for i in range(3)` loop of `get_soup`: `rem` iterations remain,
`i` is the index of the next attempt, `last` is the Python `last_text`.
Returns the text handed to `_bs` and the number of upstream calls made
from this point on. -/
def get_soupAux (outcomes : Nat → Attempt) : Nat → Nat → String → String × Nat
  | _, 0, last => (last, 0)
  | i, rem + 1, last =>
    match outcomes i with
    | .err =>
      let r := get_soupAux outcomes (i + 1) rem last
      (r.1, r.2 + 1)
    | .resp s t =>
      if retryStatus s then
        let r := get_soupAux outcomes (i + 1) rem t
        (r.1, r.2 + 1)
      else
        (t, 1)

/-- `get_soup(url)`: the body parsed on return, plus the number of
`session.get` calls performed.  A non-200, non-retryable status is logged
and the body is still returned. -/
def get_soup (outcomes : Nat → Attempt) : String × Nat :=
  get_soupAux outcomes 0 3 ""

/-! ## `clean_synopsis` (`app.py` lines 109–133) -/

/-- The `blacklist_exact` list of boilerplate lines. -/
def blacklist_exact : List String :=
  ["Gør dit lærred lidt bredere",
   "Filmtaget",
   "Se alle",
   "Læs mere",
   "Køb billetter",
   "Relaterede programmer",
   "Cinemateket",
   "Dansk film under åben himmel"]

/-- `any(b.lower() == ln.lower() for b in blacklist_exact)`. -/
def blacklistHit (ln : String) : Bool :=
  blacklist_exact.any (fun b => lowerStr b = lowerStr ln)

/-- Case-insensitive literal match of `pat` at the head of `cs`, returning
the remaining characters (the `re.I` comparison of both sides through
`lower`). -/
def matchCIWord (pat : List Char) (cs : List Char) : Option (List Char) :=
  match pat, cs with
  | [], rest => some rest
  | _ :: _, [] => none
  | p :: ps, c :: rest => if lowerDa c = lowerDa p then matchCIWord ps rest else none

/-- `re.match(r"^(Medvirkende|Instruktør|Original titel|Sprog|Aldersgrænse|Længde)\s*:", ln, re.I)`:
one of the metadata labels at the start of the line, optional whitespace,
then a colon. -/
def isMetaLabel (ln : String) : Bool :=
  (["Medvirkende", "Instruktør", "Original titel", "Sprog", "Aldersgrænse", "Længde"] :
      List String).any
    (fun p =>
      match matchCIWord p.data ln.data with
      | none => false
      | some rest =>
        match rest.dropWhile isSpacePy with
        | ':' :: _ => true
        | _ => false)

/-- The filter applied to each stripped line of the synopsis. -/
def keepLine (ln : String) : Bool :=
  ln ≠ "" && !blacklistHit ln && !isMetaLabel ln

/-- `re.split(r"\n+", txt)` followed by `.strip()` of every fragment and
the `keepLine` filter. -/
def cleanLines (txt : String) : List String :=
  (((splitRuns (fun c => c = '\n') txt.data).map
      (fun cs => pyStrip (String.mk cs))).filter keepLine)

/-- `t = "\n\n".join(lines).strip()`: the synopsis text before the word
cap. -/
def synText (txt : String) : String :=
  pyStrip (String.intercalate "\n\n" (cleanLines txt))

/-- `clean_synopsis(txt)`: drop boilerplate and metadata lines, rejoin with
blank lines, truncate to 160 words plus an ellipsis. -/
def clean_synopsis (txt : String) : String :=
  if txt = "" then ""
  else
    let t := synText txt
    let ws := pyWords t
    if 160 < ws.length then String.intercalate " " (ws.take 160) ++ "…" else t

/-! ## Day-header parsing: `DAY_RE` and `iso_from_label`
(`app.py` lines 35–38, 53, 96–107) -/

def isDigitPy (c : Char) : Bool := '0' ≤ c && c ≤ '9'

def digitVal (c : Char) : Nat := c.toNat - 48

/-- `\d{1,2}\.` at the head of the input: greedily two digits then a
literal dot, backtracking to one digit then a dot.  Returns the numeric
value and the remainder. -/
def parseDayDot : List Char → Option (Nat × List Char)
  | [] => none
  | c1 :: rest1 =>
    if isDigitPy c1 then
      match rest1 with
      | [] => none
      | c2 :: rest2 =>
        if isDigitPy c2 then
          match rest2 with
          | '.' :: r => some (digitVal c1 * 10 + digitVal c2, r)
          | _ => none
        else if c2 = '.' then some (digitVal c1, rest2) else none
    else none

/-- The Danish weekday names of `DAY_RE`, in alternation order. -/
def WEEKDAYS : List String :=
  ["Mandag", "Tirsdag", "Onsdag", "Torsdag", "Fredag", "Lørdag", "Søndag"]

/-- Try an ordered list of literal alternatives case-insensitively. -/
def matchAlts : List String → List Char → Option (List Char)
  | [], _ => none
  | w :: ws, cs =>
    match matchCIWord w.data cs with
    | some rest => some rest
    | none => matchAlts ws cs

/-- `\w` for the alphabet in play: ASCII alphanumerics, underscore and the
Danish letters (Python `\w` is wider, but the difference is unreachable on
this site's pages). -/
def isWordChar (c : Char) : Bool :=
  c.isAlpha || isDigitPy c || c = '_'
    || c = 'æ' || c = 'ø' || c = 'å' || c = 'Æ' || c = 'Ø' || c = 'Å'

/-- `DAY_RE = ^(Mandag|Tirsdag|Onsdag|Torsdag|Fredag|Lørdag|Søndag)\s+(\d{1,2})\.\s*(\w+)`
with `re.I`, anchored at the start (as `search` with `^` and no
`re.M` is).  Returns the day number (group 2) and the month word
(group 3). -/
def dayHeaderMatch (cs : List Char) : Option (Nat × String) :=
  match matchAlts WEEKDAYS cs with
  | none => none
  | some r1 =>
    match r1 with
    | [] => none
    | c :: r2 =>
      if isSpacePy c then
        match parseDayDot (r2.dropWhile isSpacePy) with
        | none => none
        | some (d, r4) =>
          let w := (r4.dropWhile isSpacePy).takeWhile isWordChar
          if w = [] then none else some (d, String.mk w)
      else none

/-- `MONTHS`: full Danish month names. -/
def MONTHS : List (String × Nat) :=
  [("januar", 1), ("februar", 2), ("marts", 3), ("april", 4), ("maj", 5), ("juni", 6),
   ("juli", 7), ("august", 8), ("september", 9), ("oktober", 10), ("november", 11),
   ("december", 12)]

/-- Gregorian leap year, as `datetime.date` uses. -/
def isLeap (y : Nat) : Bool :=
  (y % 4 = 0 && y % 100 ≠ 0) || y % 400 = 0

def daysInMonth (y m : Nat) : Nat :=
  if m = 2 then (if isLeap y then 29 else 28)
  else if m = 4 || m = 6 || m = 9 || m = 11 then 30
  else 31

/-- The arguments `datetime.date(y, m, d)` accepts without raising
`ValueError` (`MINYEAR = 1`, `MAXYEAR = 9999`). -/
def validDate (y m d : Nat) : Bool :=
  1 ≤ y && y ≤ 9999 && 1 ≤ m && m ≤ 12 && 1 ≤ d && d ≤ daysInMonth y m

/-- Decimal digit character for `k < 10` (the catch-all is unreachable on
the inputs the paddings receive). -/
def digitChar : Nat → Char
  | 0 => '0' | 1 => '1' | 2 => '2' | 3 => '3' | 4 => '4'
  | 5 => '5' | 6 => '6' | 7 => '7' | 8 => '8' | 9 => '9'
  | _ => '*'

/-- Two-digit zero-padded rendering, for `n ≤ 99`. -/
def pad2 (n : Nat) : List Char := [digitChar (n / 10), digitChar (n % 10)]

/-- Four-digit zero-padded rendering, for `n ≤ 9999`. -/
def pad4 (n : Nat) : List Char :=
  [digitChar (n / 1000), digitChar (n / 100 % 10), digitChar (n / 10 % 10), digitChar (n % 10)]

/-- `date(y, m, d).isoformat()`. -/
def isoStr (y m d : Nat) : String :=
  String.mk (pad4 y ++ '-' :: pad2 m ++ '-' :: pad2 d)

/-- `iso_from_label(label, year)` from `app.py`. -/
def iso_from_label (label : String) (year : Nat) : Option String :=
  match dayHeaderMatch (pyStrip label).data with
  | none => none
  | some (d, w) =>
    match alookup (lowerStr w) MONTHS with
    | none => none
    | some mon => if validDate year mon d then some (isoStr year mon d) else none

example : iso_from_label ("Mandag 3. marts") 2025 = some ("2025-03-03") := by decide

example : iso_from_label ("Ugyldig dag") 2025 = none := by decide

/-! ## `extract_title` (`app.py` lines 135–184)

A parsed page enters the model as the tuple of query results the code
reads from BeautifulSoup: the `og:title`/`twitter:title` meta contents,
the `name` fields of each well-formed JSON-LD script (a dict giving a
one-element list), the text of the first `h1`/`h2`, and the `<title>`
text.  A malformed JSON-LD script (which the code skips via
`except: continue`) is simply absent from `ldNameLists`. -/

structure Doc where
  /-- `content` of `meta[property="og:title"]`; `none` when the tag or the
  attribute is missing. -/
  ogTitle : Option String := none
  /-- `content` of `meta[name="twitter:title"]`. -/
  twTitle : Option String := none
  /-- For each well-formed `application/ld+json` script, the
  `str(x.get("name", ""))` values it yields, in document order. -/
  ldNameLists : List (List String) := []
  /-- `get_text(strip=True)` of `doc.find(["h1", "h2"])`. -/
  firstHeading : Option String := none
  /-- `get_text(strip=True)` of `doc.title`. -/
  titleTag : Option String := none

/-- The `og:title` branch: the tag is present, its content truthy, and the
stripped content is not the brand name. -/
def titleFromOg (doc : Doc) : Option String :=
  match doc.ogTitle with
  | none => none
  | some c =>
    if c ≠ "" && lowerStr (pyStrip c) ≠ ("cinemateket") then some (pyStrip c) else none

/-- The `twitter:title` branch, same shape. -/
def titleFromTw (doc : Doc) : Option String :=
  match doc.twTitle with
  | none => none
  | some c =>
    if c ≠ "" && lowerStr (pyStrip c) ≠ ("cinemateket") then some (pyStrip c) else none

/-- One JSON-LD block: first stripped `name` that is non-empty and not the
brand name. -/
def firstLdInBlock : List String → Option String
  | [] => none
  | n :: ns =>
    let n' := pyStrip n
    if n' ≠ "" && lowerStr n' ≠ ("cinemateket") then some n' else firstLdInBlock ns

/-- The JSON-LD loop over all script blocks. -/
def firstLdName : List (List String) → Option String
  | [] => none
  | ns :: rest =>
    match firstLdInBlock ns with
    | some n => some n
    | none => firstLdName rest

/-- The `h1`/`h2` branch. -/
def titleFromHeading (doc : Doc) : Option String :=
  match doc.firstHeading with
  | none => none
  | some hv => if hv ≠ "" && lowerStr hv ≠ ("cinemateket") then some hv else none

/-- The `<title>` branch (`t = doc.title.get_text(strip=True) if doc.title else ""`). -/
def titleFromTag (doc : Doc) : Option String :=
  let t := doc.titleTag.getD ""
  if t ≠ "" && lowerStr t ≠ ("cinemateket") then some t else none

/-- `re.sub(r"[-_]+", " ", seg)`: every maximal run of `-`/`_` becomes a
single space. -/
def subDashRuns (s : String) : String :=
  String.intercalate " "
    ((splitRuns (fun c => c = '-' || c = '_') s.data).map String.mk)

/-- Exactly `n` digits at the head. -/
def exactDigits : Nat → List Char → Option (List Char)
  | 0, cs => some cs
  | _ + 1, [] => none
  | n + 1, c :: cs => if isDigitPy c then exactDigits n cs else none

/-- `\d{1,2}` followed by the separator `sep`, greedy with backtracking;
returns the remainder after the separator. -/
def parseD12Sep (sep : Char) : List Char → Option (List Char)
  | [] => none
  | c1 :: rest1 =>
    if isDigitPy c1 then
      match rest1 with
      | [] => none
      | c2 :: rest2 =>
        if isDigitPy c2 then
          match rest2 with
          | c3 :: r => if c3 = sep then some r else none
          | [] => none
        else if c2 = sep then some rest2 else none
    else none

/-- A trailing `\d{1,2}` with nothing after it in the pattern: greedily one
or two digits. -/
def parseD12Free : List Char → Option (List Char)
  | [] => none
  | [c1] => if isDigitPy c1 then some [] else none
  | c1 :: c2 :: r =>
    if isDigitPy c1 then (if isDigitPy c2 then some r else some (c2 :: r)) else none

/-- The optional greedy group `(-\d{2,4})?`. -/
def optDashDigits (r : List Char) : List Char :=
  match r with
  | '-' :: r2 =>
    let ds := (r2.takeWhile isDigitPy).length
    if 2 ≤ ds then r2.drop (min ds 4) else r
  | _ => r

/-- A match of `\d{1,2}-\d{1,2}(-\d{2,4})?` anchored at the head; returns
the remainder after the match. -/
def matchDatePat (cs : List Char) : Option (List Char) :=
  match parseD12Sep '-' cs with
  | none => none
  | some r => (parseD12Free r).map optDashDigits

/-- Left-to-right non-overlapping `re.sub(pattern, "", s)` scan. -/
def reSubDateGo : Nat → List Char → List Char
  | 0, cs => cs
  | _ + 1, [] => []
  | fuel + 1, c :: rest =>
    match matchDatePat (c :: rest) with
    | some r => reSubDateGo fuel r
    | none => c :: reSubDateGo fuel rest

/-- `re.sub(r"\d{1,2}-\d{1,2}(-\d{2,4})?", "", s)`.  (In `extract_title`
the previous substitution has already removed every `-`, so this is the
identity there, exactly as in the source.) -/
def reSubDate (s : String) : String :=
  String.mk (reSubDateGo s.data.length s.data)

/-- Python `str.capitalize`: first character uppercased, the rest
lowercased. -/
def pyCapitalize (w : String) : String :=
  match w.data with
  | [] => ""
  | c :: rest => String.mk (upperDa c :: rest.map lowerDa)

/-- The final URL-segment fallback of `extract_title`:
`urlparse(url).path.strip("/").split("/")[-1]`, dashes/underscores to
spaces, date-like tokens stripped, words capitalized, `"Titel"` when
empty. -/
def slugFromPath (path : String) : String :=
  let seg := ((splitChar (fun c => c = '/') (stripSlash path).data).map String.mk).getLastD ("")
  let slug1 := pyStrip (subDashRuns seg)
  let slug2 := pyStrip (reSubDate slug1)
  let joined := String.intercalate " " ((pyWords slug2).map pyCapitalize)
  if joined = "" then ("Titel") else joined

/-- `extract_title(doc, url)` from `app.py`: the ordered fallback chain. -/
def extract_title (doc : Doc) (u : Url) : String :=
  match titleFromOg doc with
  | some t => t
  | none =>
    match titleFromTw doc with
    | some t => t
    | none =>
      match firstLdName doc.ldNameLists with
      | some t => t
      | none =>
        match titleFromHeading doc with
        | some t => t
        | none =>
          match titleFromTag doc with
          | some t => t
          | none => slugFromPath u.path

example :
    extract_title
      { ogTitle := some ("Cinemateket"), firstHeading := some ("Stalker") }
      ⟨("https"), ("www.dfi.dk"), ("/cinemateket/biograf/alle-film/film/stalker")⟩
      = "Stalker" := by decide

example :
    slugFromPath ("/cinemateket/biograf/alle-film/film/den-store-fest") =
      "Den Store Fest" := by decide

/-! ## `parse_calendar` (`app.py` lines 285–343)

A card is one film/event anchor of the "Alle film" listing: its resolved
href, its anchor text, and the ancestor text found by the bounded upward
DOM walk (empty when no ancestor within 5 hops contains a date-bearing
substring) — the walk itself is a DOM collaborator, its result enters the
model as data. -/

/-- `MONTHS_DA`: abbreviated and full Danish month names. -/
def MONTHS_DA : List (String × Nat) :=
  [("jan", 1), ("januar", 1),
   ("feb", 2), ("februar", 2),
   ("mar", 3), ("marts", 3),
   ("apr", 4), ("april", 4),
   ("maj", 5),
   ("jun", 6), ("juni", 6),
   ("jul", 7), ("juli", 7),
   ("aug", 8), ("august", 8),
   ("sep", 9), ("september", 9),
   ("okt", 10), ("oktober", 10),
   ("nov", 11), ("november", 11),
   ("dec", 12), ("december", 12)]

/-- The `[A-Za-zæøåÆØÅ]` character class. -/
def isDaLetter (c : Char) : Bool :=
  c.isAlpha || c = 'æ' || c = 'ø' || c = 'å' || c = 'Æ' || c = 'Ø' || c = 'Å'

/-- `(\d{1,2})\.\s*([A-Za-zæøåÆØÅ]+)` anchored at the head of `cs`. -/
def matchDayMonthAt (cs : List Char) : Option (Nat × String) :=
  match parseDayDot cs with
  | none => none
  | some (d, r) =>
    let w := (r.dropWhile isSpacePy).takeWhile isDaLetter
    if w = [] then none else some (d, String.mk w)

/-- `re.search` for the day/month pattern: leftmost position where a match
starts. -/
def searchDayMonth : List Char → Option (Nat × String)
  | [] => none
  | c :: rest =>
    match matchDayMonthAt (c :: rest) with
    | some r => some r
    | none => searchDayMonth rest

/-- `parse_dates_chunk(text)` (closure inside `parse_calendar`): split the
ancestor text on `[,–\-]+`, strip the parts, and resolve each
day/month fragment to an ISO date in `year`, skipping unknown months and
invalid dates. -/
def parse_dates_chunk (year : Nat) (text : String) : List String :=
  let parts := ((splitRuns (fun c => c = ',' || c = '–' || c = '-') text.data).map
      (fun cs => pyStrip (String.mk cs))).filter (fun p => p ≠ "")
  parts.filterMap (fun p =>
    match searchDayMonth p.data with
    | none => none
    | some (d, w) =>
      match alookup (lowerStr w) MONTHS_DA with
      | none => none
      | some mon => if validDate year mon d then some (isoStr year mon d) else none)

/-- One anchor card of the listing page. -/
structure Card where
  href : Url
  title : String
  dateText : String

/-- A screening entry as built by `parse_calendar`
(`{"time": "00:00", "title": title, "href": href}`). -/
structure Entry where
  time : String
  title : String
  href : Option Url
deriving DecidableEq

/-- A day block (`{"label": ..., "entries": ...}`). -/
structure DayBlock where
  label : String
  entries : List Entry
deriving DecidableEq

/-- The `day_map` fold of `parse_calendar`: skip non-allowlisted cards,
append one placeholder entry per resolved date. -/
def dayMapOf (year : Nat) (cards : List Card) : List (String × List Entry) :=
  cards.foldl
    (fun m a =>
      if allowed a.href then
        (parse_dates_chunk year a.dateText).foldl
          (fun m iso =>
            dappend iso { time := ("00:00"), title := a.title, href := some a.href } m)
          m
      else m)
    []

/-- `int` of a decimal digit string (Python `int`). -/
def natFromDigits (cs : List Char) : Nat :=
  cs.foldl (fun n c => n * 10 + digitVal c) 0

/-- `y, m, d = map(int, iso.split("-"))`.  The keys of `day_map` are
always well-formed `YYYY-MM-DD` strings, so the catch-all is
unreachable. -/
def parseIsoNums (iso : String) : Nat × Nat × Nat :=
  match (splitChar (fun c => c = '-') iso.data).map natFromDigits with
  | [y, m, d] => (y, m, d)
  | _ => (0, 0, 0)

/-- Days from 1970-01-01 of a civil date (the standard Gregorian
days-from-civil computation backing `datetime.date`). -/
def daysFromCivil (y m d : Nat) : Int :=
  let y' : Int := (y : Int) - (if m ≤ 2 then 1 else 0)
  let era : Int := (if 0 ≤ y' then y' else y' - 399) / 400
  let yoe : Int := y' - era * 400
  let mp : Int := ((m : Int) + 9) % 12
  let doy : Int := (153 * mp + 2) / 5 + (d : Int) - 1
  let doe : Int := yoe * 365 + yoe / 4 - yoe / 100 + doy
  era * 146097 + doe - 719468

/-- `date(y, m, d).weekday()`: Monday = 0 … Sunday = 6 (1970-01-01 was a
Thursday, weekday 3). -/
def weekdayIdx (y m d : Nat) : Nat :=
  ((daysFromCivil y m d + 3) % 7).toNat

/-- The inline month-name list of the label f-string. -/
def MONTH_NAMES : List String :=
  ["januar", "februar", "marts", "april", "maj", "juni",
   "juli", "august", "september", "oktober", "november", "december"]

/-- Python `str(n)` for the day numbers (`n ≤ 99`) this code renders. -/
def natDigits (n : Nat) : List Char :=
  if n < 10 then [digitChar n] else [digitChar (n / 10), digitChar (n % 10)]

/-- `f"{wd} {d}. {month}"`: the generated day label, as the concatenated
character list.  The list defaults are unreachable (`weekdayIdx < 7` and
`1 ≤ m ≤ 12` for every key). -/
def dayLabel (y m d : Nat) : String :=
  String.mk ((WEEKDAYS.getD (weekdayIdx y m d) ("Mandag")).data
    ++ (' ' :: (natDigits d ++ ('.' :: ' ' :: (MONTH_NAMES.getD (m - 1) ("")).data))))

/-- The output loop of `parse_calendar` keeping the grouping key:
`sorted(day_map.items())` sorts the pairs by key (keys are unique, so the
tuple comparison never reaches the values), i.e. iterates the sorted keys
and looks each one up. -/
def parse_calendarPairs (year : Nat) (cards : List Card) : List (String × DayBlock) :=
  let m := dayMapOf year cards
  (pySort strLe (m.map Prod.fst)).map
    (fun iso =>
      let n := parseIsoNums iso
      (iso, { label := dayLabel n.1 n.2.1 n.2.2, entries := (alookup iso m).getD [] }))

/-- `parse_calendar()` from `app.py`, with the listing page's cards and
the current year as explicit inputs. -/
def parse_calendar (year : Nat) (cards : List Card) : List DayBlock :=
  (parse_calendarPairs year cards).map Prod.snd

/-! ## `build_series_registry` (`app.py` lines 207–283)

A crawled series page enters the model as its resolved URL, its parsed
document (for the title extractor), its paragraph texts, the image
extractor's result, and the resolved hrefs of its film/event anchors.  A
page whose processing raises is skipped by the `except: pass` and is
simply absent from the input.  `time.sleep` is not modelled. -/

/-- A series page, after fetching and DOM queries. -/
structure SeriesPage where
  url : Url
  doc : Doc
  /-- `p.get_text(" ", strip=True)` for each `p` under the body block. -/
  paras : List String
  /-- `extract_image(sdoc)` (the image extractor is a DOM collaborator). -/
  banner : Option String
  /-- Resolved hrefs of the film/event anchors on the page. -/
  itemAnchors : List Url

/-- `extract_title(sdoc, s_url).strip() or "Serie"`. -/
def seriesName (p : SeriesPage) : String :=
  let n := pyStrip (extract_title p.doc p.url)
  if n = "" then ("Serie") else n

/-- `clean_synopsis("\n\n".join(ps[:4])) if ps else ""`. -/
def seriesIntro (p : SeriesPage) : String :=
  if p.paras.isEmpty then "" else clean_synopsis (String.intercalate "\n\n" (p.paras.take 4))

/-- One entry of the `meta` mapping: `{"intro": ..., "banner": ...}`. -/
structure SeriesMeta where
  intro : String
  banner : Option String

/-- The primary strategy loop over the series-index anchors, carrying
`seen_series_pages`, `by_href` and `meta`. -/
def buildPrimaryGo :
    List SeriesPage → List Url → List (Url × String) → List (String × SeriesMeta) →
      List (Url × String) × List (String × SeriesMeta)
  | [], _, by_href, meta => (by_href, meta)
  | p :: rest, seen, by_href, meta =>
    if p.url ∈ seen then buildPrimaryGo rest seen by_href meta
    else
      let sname := seriesName p
      let meta' := dinsert sname { intro := seriesIntro p, banner := p.banner } meta
      let by' := p.itemAnchors.foldl
        (fun b ih => if allowed ih then dinsert ih sname b else b) by_href
      buildPrimaryGo rest (p.url :: seen) by' meta'

/-- One item of the fallback crawl: the item's resolved href and, when its
detail page has a series breadcrumb anchor, the series page that anchor
leads to. -/
structure FallbackItem where
  url : Url
  seriesLink : Option SeriesPage

/-- The fallback strategy loop over the listing page's item anchors,
carrying `seen_items`; the `meta` lookup memoizes series metadata by
name. -/
def buildFallbackGo :
    List FallbackItem → List Url → List (Url × String) → List (String × SeriesMeta) →
      List (Url × String) × List (String × SeriesMeta)
  | [], _, by_href, meta => (by_href, meta)
  | it :: rest, seen, by_href, meta =>
    if !allowed it.url || it.url ∈ seen then buildFallbackGo rest seen by_href meta
    else
      match it.seriesLink with
      | none => buildFallbackGo rest (it.url :: seen) by_href meta
      | some sp =>
        let sname := seriesName sp
        let meta' :=
          if (alookup sname meta).isSome then meta
          else dinsert sname { intro := seriesIntro sp, banner := sp.banner } meta
        buildFallbackGo rest (it.url :: seen) (dinsert it.url sname by_href) meta'

/-- `build_series_registry()` from `app.py`: the primary series-index
strategy, falling back to the listing crawl when it yields zero mappings
(the `meta` gathered by the primary attempt is kept, as in the source). -/
def build_series_registry (pages : List SeriesPage) (fbItems : List FallbackItem) :
    List (Url × String) × List (String × SeriesMeta) :=
  let r1 := buildPrimaryGo pages [] [] []
  if r1.1.isEmpty then buildFallbackGo fbItems [] r1.1 r1.2 else r1

/-- The join-time default of the aggregator:
`by_href.get(href, "Uden for serie")` (`app.py` line 429). -/
def joinSeriesName (reg : List (Url × String)) (u : Url) : String :=
  (alookup u reg).getD ("Uden for serie")

/-! ## The `/program` aggregator (`app.py` lines 394–495)

Network-driven inputs become parameters: the registry pair, the parsed
day blocks, and a `details` function giving `fetch_item_details`' result
per href (`none` models the exception branch, which substitutes a
placeholder).  `generated_at` and the echoed `scope` carry no logic and
are not modelled; the response is its `series` list or the 400 error. -/

/-- `fetch_item_details` result: `{title, synopsis, image, times}`. -/
structure ItemDetail where
  title : String
  synopsis : String
  image : Option String
  times : List String

/-- One aggregated item of the output (`bucket[href]`). -/
structure AggItem where
  url : Url
  title : String
  image : Option String
  synopsis : String
  times : List String
  dates : List String
deriving DecidableEq

/-- One value of `series_map` (`{"intro", "banner", "items"}`). -/
structure SeriesData where
  intro : String
  banner : Option String
  items : List (Url × AggItem)

/-- One element of the output `series` list. -/
structure SeriesGroup where
  name : String
  intro : String
  banner : Option String
  items : List AggItem
deriving DecidableEq

/-- The query parameters of the request; `fromArg`/`toArg` stand for the
`from`/`to` query keys (`from` is reserved in Lean).  `none` means the
parameter is absent. -/
structure Args where
  mode : Option String := none
  fromArg : Option String := none
  toArg : Option String := none

/-- The `/program` response: the 400 error envelope or the 200 payload's
`series` list. -/
inductive ProgResp where
  | badRequest
  | ok (series : List SeriesGroup)
deriving DecidableEq

/-- The placeholder detail used when `fetch_item_details` raises:
`{"title": e.get("title") or "Titel", "synopsis": "", "image": None, "times": []}`. -/
def placeholderDetail (e : Entry) : ItemDetail :=
  { title := if e.title ≠ "" then e.title else ("Titel"),
    synopsis := "", image := none, times := [] }

/-- Creation of a fresh bucket item
(`app.py` lines 444–451, `det.get("title") or (e.get("title") or "Titel")`). -/
def mkAggItem (u : Url) (e : Entry) (det : ItemDetail) : AggItem :=
  { url := u,
    title := if det.title ≠ "" then det.title else (if e.title ≠ "" then e.title else ("Titel")),
    image := det.image,
    synopsis := det.synopsis,
    times := det.times,
    dates := [] }

/-- The date-recording step (`app.py` lines 454–463): when the item has
backfilled show times and the entry is the `"00:00"` placeholder, fan the
calendar date out across all known times; otherwise record the entry's own
timestamp; in both cases append only timestamps not already present. -/
def recordDates (times : List String) (etime iso : String) (dates : List String) :
    List String :=
  if times ≠ [] && etime = ("00:00") then
    times.foldl
      (fun ds tm => if (iso ++ " " ++ tm) ∈ ds then ds else ds ++ [iso ++ " " ++ tm])
      dates
  else
    let dt := iso ++ " " ++ etime
    if dt ∈ dates then dates else dates ++ [dt]

/-- Processing of one screening entry (`app.py` lines 424–463). -/
def processEntry (reg : List (Url × String)) (meta : List (String × SeriesMeta))
    (details : Url → Option ItemDetail) (iso : String)
    (smap : List (String × SeriesData)) (e : Entry) : List (String × SeriesData) :=
  match e.href with
  | none => smap
  | some u =>
    if allowed u then
      let sname := joinSeriesName reg u
      let smap1 :=
        if (alookup sname smap).isSome then smap
        else
          smap ++ [(sname,
            { intro := ((alookup sname meta).map SeriesMeta.intro).getD "",
              banner := ((alookup sname meta).map SeriesMeta.banner).getD none,
              items := [] })]
      updAssoc sname
        (fun data =>
          let bucket :=
            if (alookup u data.items).isSome then data.items
            else data.items ++ [(u, mkAggItem u e ((details u).getD (placeholderDetail e)))]
          { data with
              items := updAssoc u
                (fun it => { it with dates := recordDates it.times e.time iso it.dates })
                bucket })
        smap1
    else smap

/-- The day loop (`app.py` lines 410–463): resolve each block's date, skip
unparseable labels, apply the scope filter — mode `"all"` drops dates
before today, any other mode first demands truthy `from`/`to` values
(else the 400 early return, `none` here) and then drops dates outside the
inclusive range — and fold the surviving entries.  String comparisons are
Python's lexicographic `str` ordering. -/
def scanDays (mode d_from : String) (d_to : Option String) (today : String) (year : Nat)
    (reg : List (Url × String)) (meta : List (String × SeriesMeta))
    (details : Url → Option ItemDetail) :
    List DayBlock → List (String × SeriesData) → Option (List (String × SeriesData))
  | [], smap => some smap
  | d :: rest, smap =>
    match iso_from_label d.label year with
    | none => scanDays mode d_from d_to today year reg meta details rest smap
    | some iso =>
      if mode = "all" then
        if strLt iso today then scanDays mode d_from d_to today year reg meta details rest smap
        else
          scanDays mode d_from d_to today year reg meta details rest
            (d.entries.foldl (processEntry reg meta details iso) smap)
      else
        if d_from = "" || d_to = none || d_to = some "" then none
        else if !(strLe d_from iso && strLe iso (d_to.getD "")) then
          scanDays mode d_from d_to today year reg meta details rest smap
        else
          scanDays mode d_from d_to today year reg meta details rest
            (d.entries.foldl (processEntry reg meta details iso) smap)

/-- `x["dates"][0] if x["dates"] else "9999-99-99 99:99"`: the item sort
key. -/
def itemKey (x : AggItem) : String :=
  match x.dates with
  | [] => "9999-99-99 99:99"
  | dt :: _ => dt

def itemLe (x y : AggItem) : Bool := strLe (itemKey x) (itemKey y)

/-- `first_dt(s)` (`app.py` lines 480–483).  Python indexes
`items[0]["dates"][0]` without a guard on empty `dates`; every aggregated
item has at least one date (`program_item_dates_nonempty` below), so the
total model via `itemKey` agrees with the source on all reachable
states. -/
def first_dt (s : SeriesGroup) : String :=
  match s.items with
  | [] => "9999-99-99 99:99"
  | it :: _ => itemKey it

/-- The `(first_dt(s), s["name"])` tuple order of the group sort. -/
def groupLe (s t : SeriesGroup) : Bool :=
  if first_dt s = first_dt t then strLe s.name t.name else strLe (first_dt s) (first_dt t)

/-- The output-building step (`app.py` lines 465–485): sort every item's
dates, drop series with no items, sort items by earliest date, sort groups
by (earliest date, name).  Python's stable `list.sort` is modelled by
`pySort`. -/
def buildOut (smap : List (String × SeriesData)) : List SeriesGroup :=
  let out := smap.filterMap
    (fun p =>
      let items := p.2.items.map (fun q => { q.2 with dates := pySort strLe q.2.dates })
      if items.isEmpty then none
      else some { name := p.1, intro := p.2.intro, banner := p.2.banner,
                  items := pySort itemLe items })
  pySort groupLe out

/-- The `/program` route (`app.py` lines 394–495) over its network-free
inputs. -/
def program (args : Args) (today : String) (year : Nat)
    (reg : List (Url × String)) (meta : List (String × SeriesMeta))
    (details : Url → Option ItemDetail) (days : List DayBlock) : ProgResp :=
  let mode := args.mode.getD ("all")
  let d_from := args.fromArg.getD today
  let d_to := args.toArg
  match scanDays mode d_from d_to today year reg meta details days [] with
  | none => ProgResp.badRequest
  | some smap => ProgResp.ok (buildOut smap)

/-! ## The `/fetch` caching reverse proxy

Modelled from the spec: no `/fetch` handler exists in the source set; the
spec (§4.6, §6, §8) describes it as rate limiting first, then a 400 for a
missing `url` parameter, then the scheme/host/path allowlist check —
rejected targets get 403 with no upstream contact — then the cache, then
the upstream leg.  Only the pre-upstream part carries the claimed
property, so the upstream leg (retries, redirect re-validation) is
collapsed into a single parameterised response. -/

/-- The request-independent state the spec's `/fetch` consults before any
upstream call: whether this client is over its rate window, whether the
cache holds an unexpired entry for the target, and what the upstream
would answer. -/
structure FetchCtx where
  limited : Bool
  cacheHit : Bool
  upstreamStatus : Nat

/-- Modelled from the spec: the `/fetch` handler's status code paired with
the number of upstream network calls it performs. -/
def fetch_route (ctx : FetchCtx) (urlArg : Option Url) : Nat × Nat :=
  if ctx.limited then (429, 0)
  else
    match urlArg with
    | none => (400, 0)
    | some u =>
      if !allowed u then (403, 0)
      else if ctx.cacheHit then (200, 0)
      else (ctx.upstreamStatus, 1)

/-! ## Claim theorems -/

/-- C1: for every `/fetch` request whose `url` has a host outside the
allowlisted host set or a path outside the allowlisted path prefixes, the
service returns 403 and performs no upstream network call (modelled from
the spec, for requests not already rejected by the rate limiter, which the
spec runs first). -/
theorem fetch_rejects_disallowed_without_upstream (ctx : FetchCtx) (u : Url)
    (hnl : ctx.limited = false)
    (h : u.netloc ∉ ALLOWED_HOSTS ∨ pyStartsWith u.path ("/cinemateket/") = false) :
    fetch_route ctx (some u) = (403, 0) := by
  have hall : allowed u = false := by
    unfold allowed
    rcases h with h | h <;> simp [h]
  unfold fetch_route
  simp [hnl, hall]

theorem fetch_rejects_disallowed_witness :
    fetch_route { limited := false, cacheHit := false, upstreamStatus := 200 }
      (some ⟨("https"), ("evil.example"), ("/cinemateket/biograf")⟩) = (403, 0) :=
  fetch_rejects_disallowed_without_upstream _ _ rfl (Or.inl (by decide))

/-- The body the loop has seen last when all three attempts were
retryable. -/
def lastBodyOf (outcomes : Nat → Attempt) : String :=
  match outcomes 2 with
  | .resp _ t => t
  | .err =>
    match outcomes 1 with
    | .resp _ t => t
    | .err =>
      match outcomes 0 with
      | .resp _ t => t
      | .err => ""

/-- C6: `get_soup` makes at most 3 upstream calls; it returns immediately
with the response body (even for a non-200 status) as soon as an attempt
is neither a transport error nor one of the retry statuses
429/500/502/503/504; and when every attempt is retryable it still returns
the last body obtained (possibly empty) after exactly 3 calls — it never
returns an error. -/
theorem get_soup_retry_behavior (outcomes : Nat → Attempt) :
    (get_soup outcomes).2 ≤ 3 ∧
    (∀ s t, outcomes 0 = Attempt.resp s t → retryStatus s = false →
      get_soup outcomes = (t, 1)) ∧
    (∀ s t, retriesOn (outcomes 0) = true → outcomes 1 = Attempt.resp s t →
      retryStatus s = false → get_soup outcomes = (t, 2)) ∧
    (∀ s t, retriesOn (outcomes 0) = true → retriesOn (outcomes 1) = true →
      outcomes 2 = Attempt.resp s t → retryStatus s = false →
      get_soup outcomes = (t, 3)) ∧
    (retriesOn (outcomes 0) = true → retriesOn (outcomes 1) = true →
      retriesOn (outcomes 2) = true → get_soup outcomes = (lastBodyOf outcomes, 3)) := by
  unfold get_soup lastBodyOf
  cases h0 : outcomes 0 with
  | err =>
    cases h1 : outcomes 1 with
    | err =>
      cases h2 : outcomes 2 with
      | err => simp [get_soupAux, h0, h1, h2, retriesOn]
      | resp s2 t2 =>
        by_cases hr2 : retryStatus s2 <;>
          simp [get_soupAux, h0, h1, h2, retriesOn, hr2]
    | resp s1 t1 =>
      by_cases hr1 : retryStatus s1
      · cases h2 : outcomes 2 with
        | err => simp [get_soupAux, h0, h1, h2, retriesOn, hr1]
        | resp s2 t2 =>
          by_cases hr2 : retryStatus s2 <;>
            simp [get_soupAux, h0, h1, h2, retriesOn, hr1, hr2]
      · simp [get_soupAux, h0, h1, retriesOn, hr1]
  | resp s0 t0 =>
    by_cases hr0 : retryStatus s0
    · cases h1 : outcomes 1 with
      | err =>
        cases h2 : outcomes 2 with
        | err => simp [get_soupAux, h0, h1, h2, retriesOn, hr0]
        | resp s2 t2 =>
          by_cases hr2 : retryStatus s2 <;>
            simp [get_soupAux, h0, h1, h2, retriesOn, hr0, hr2]
      | resp s1 t1 =>
        by_cases hr1 : retryStatus s1
        · cases h2 : outcomes 2 with
          | err => simp [get_soupAux, h0, h1, h2, retriesOn, hr0, hr1]
          | resp s2 t2 =>
            by_cases hr2 : retryStatus s2 <;>
              simp [get_soupAux, h0, h1, h2, retriesOn, hr0, hr1, hr2]
        · simp [get_soupAux, h0, h1, retriesOn, hr0, hr1]
    · simp [get_soupAux, h0, retriesOn, hr0]

theorem get_soup_retry_witness :
    get_soup (fun i => if i = 0 then Attempt.resp 503 ("a") else Attempt.resp 404 ("b"))
      = (("b"), 2) :=
  (get_soup_retry_behavior _).2.2.1 404 ("b") (by decide) rfl (by decide)

/-- The fan-out fold of `recordDates`, membership and duplicate-freedom. -/
theorem recordDates_fold_spec (g : String → String) (times : List String)
    (dates : List String) (hnd : dates.Nodup) :
    (times.foldl (fun ds tm => if g tm ∈ ds then ds else ds ++ [g tm]) dates).Nodup ∧
    (∀ s, s ∈ times.foldl (fun ds tm => if g tm ∈ ds then ds else ds ++ [g tm]) dates ↔
      (s ∈ dates ∨ ∃ tm ∈ times, s = g tm)) := by
  induction times generalizing dates with
  | nil => simp [hnd]
  | cons t ts ih =>
    simp only [List.foldl_cons]
    by_cases hmem : g t ∈ dates
    · rcases ih dates hnd with ⟨ihn, ihm⟩
      refine ⟨by simpa [hmem] using ihn, ?_⟩
      intro s
      rw [if_pos hmem, ihm s]
      constructor
      · rintro (hs | ⟨tm, htm, rfl⟩)
        · exact Or.inl hs
        · exact Or.inr ⟨tm, List.mem_cons_of_mem _ htm, rfl⟩
      · rintro (hs | ⟨tm, htm, rfl⟩)
        · exact Or.inl hs
        · rcases List.mem_cons.1 htm with rfl | htm
          · exact Or.inl hmem
          · exact Or.inr ⟨tm, htm, rfl⟩
    · have hnd' : (dates ++ [g t]).Nodup := by
        rw [List.nodup_append]
        exact ⟨hnd, List.nodup_singleton _, by simpa using hmem⟩
      rcases ih (dates ++ [g t]) hnd' with ⟨ihn, ihm⟩
      refine ⟨by simpa [hmem] using ihn, ?_⟩
      intro s
      rw [if_neg hmem, ihm s]
      simp only [List.mem_append, List.mem_singleton]
      constructor
      · rintro ((hs | rfl) | ⟨tm, htm, rfl⟩)
        · exact Or.inl hs
        · exact Or.inr ⟨t, List.mem_cons_self _ _, rfl⟩
        · exact Or.inr ⟨tm, List.mem_cons_of_mem _ htm, rfl⟩
      · rintro (hs | ⟨tm, htm, rfl⟩)
        · exact Or.inl (Or.inl hs)
        · rcases List.mem_cons.1 htm with rfl | htm
          · exact Or.inl (Or.inr rfl)
          · exact Or.inr ⟨tm, htm, rfl⟩

/-- C3: when the entry is the `"00:00"` placeholder and the item has a
non-empty backfilled `times` list, `recordDates` records the calendar date
once per known show time instead of the placeholder timestamp; otherwise
it records the entry's own `"<date> <time>"`; and it keeps the dates list
free of duplicates. -/
theorem recordDates_spec (times : List String) (etime iso : String)
    (dates : List String) (hnd : dates.Nodup) :
    (recordDates times etime iso dates).Nodup ∧
    (∀ s, s ∈ recordDates times etime iso dates ↔
      (s ∈ dates ∨
        if times ≠ [] ∧ etime = ("00:00")
        then ∃ tm ∈ times, s = iso ++ " " ++ tm
        else s = iso ++ " " ++ etime)) := by
  unfold recordDates
  by_cases hc : times ≠ [] ∧ etime = ("00:00")
  · have hb : (times ≠ ([] : List String) && etime = ("00:00")) = true := by
      simp [hc.1, hc.2]
    rcases recordDates_fold_spec (fun tm => iso ++ " " ++ tm) times dates hnd with ⟨hn, hm⟩
    rw [hb]
    refine ⟨by simpa using hn, ?_⟩
    intro s
    rw [if_pos hc]
    simpa using hm s
  · have hb : (times ≠ ([] : List String) && etime = ("00:00")) = false := by
      rcases not_and_or.1 hc with h | h <;> simp [h] <;> tauto
    rw [hb]
    simp only [Bool.false_eq_true, if_false, if_neg hc]
    by_cases hmem : iso ++ " " ++ etime ∈ dates
    · rw [if_pos hmem]
      refine ⟨hnd, ?_⟩
      intro s
      constructor
      · exact fun hs => Or.inl hs
      · rintro (hs | rfl)
        · exact hs
        · exact hmem
    · rw [if_neg hmem]
      constructor
      · rw [List.nodup_append]
        exact ⟨hnd, List.nodup_singleton _, by simpa using hmem⟩
      · intro s
        simp [List.mem_append]

theorem recordDates_witness :
    recordDates [("18:00"), ("20:30")] ("00:00") ("2025-10-25") [] =
        ["2025-10-25 18:00", "2025-10-25 20:30"] ∧
      (recordDates [("18:00"), ("20:30")] ("00:00") ("2025-10-25") []).Nodup ∧
      ("2025-10-25 00:00") ∉ recordDates [("18:00"), ("20:30")] ("00:00") ("2025-10-25") [] :=
  ⟨by decide,
   (recordDates_spec [("18:00"), ("20:30")] ("00:00") ("2025-10-25") [] List.nodup_nil).1,
   fun hmem => by
     have h := ((recordDates_spec [("18:00"), ("20:30")] ("00:00") ("2025-10-25") []
       List.nodup_nil).2 ("2025-10-25 00:00")).1 hmem
     revert h
     decide⟩

/-- C8: `iso_from_label` recovers the ISO date of a day-header label via
the weekday/day/month regex in the given year, returns `none` on an
unmatched label and on an invalid calendar date, and in particular maps
`"Mandag 3. marts"` in 2025 to `"2025-03-03"` and `"Ugyldig dag"` to
`none`. -/
theorem iso_from_label_spec :
    iso_from_label ("Mandag 3. marts") 2025 = some ("2025-03-03") ∧
    iso_from_label ("Ugyldig dag") 2025 = none ∧
    (∀ label year, dayHeaderMatch (pyStrip label).data = none →
      iso_from_label label year = none) ∧
    (∀ label year d w, dayHeaderMatch (pyStrip label).data = some (d, w) →
      alookup (lowerStr w) MONTHS = none → iso_from_label label year = none) ∧
    (∀ label year d w mon, dayHeaderMatch (pyStrip label).data = some (d, w) →
      alookup (lowerStr w) MONTHS = some mon →
      iso_from_label label year =
        if validDate year mon d then some (isoStr year mon d) else none) := by
  refine ⟨by decide, by decide, ?_, ?_, ?_⟩
  · intro label year h
    simp [iso_from_label, h]
  · intro label year d w h hm
    simp [iso_from_label, h, hm]
  · intro label year d w mon h hm
    simp [iso_from_label, h, hm]

theorem iso_from_label_witness : iso_from_label ("Tirsdag den tredje") 2024 = none :=
  iso_from_label_spec.2.2.1 _ 2024 (by decide)

/-- C4: `clean_synopsis` keeps exactly the non-empty stripped lines that
are neither case-insensitively blacklisted boilerplate nor
metadata-labelled, rejoins them with a blank-line separator, truncates a
result of more than 160 words to the first 160 words plus an ellipsis
character, and maps empty input to empty output. -/
theorem clean_synopsis_spec :
    clean_synopsis "" = "" ∧
    (∀ txt ln, ln ∈ cleanLines txt →
      ln ≠ "" ∧ blacklistHit ln = false ∧ isMetaLabel ln = false) ∧
    (∀ txt ln,
      ln ∈ (splitRuns (fun c => c = '\n') txt.data).map (fun cs => pyStrip (String.mk cs)) →
      ln ≠ "" → blacklistHit ln = false → isMetaLabel ln = false → ln ∈ cleanLines txt) ∧
    (∀ txt, 160 < (pyWords (synText txt)).length →
      clean_synopsis txt = String.intercalate " " ((pyWords (synText txt)).take 160) ++ "…") ∧
    (∀ txt, ¬ 160 < (pyWords (synText txt)).length → clean_synopsis txt = synText txt) := by
  refine ⟨rfl, ?_, ?_, ?_, ?_⟩
  · intro txt ln hmem
    have h := (List.mem_filter.1 hmem).2
    simp only [keepLine, Bool.and_eq_true, Bool.not_eq_true', decide_eq_true_eq] at h
    exact ⟨h.1.1, h.1.2, h.2⟩
  · intro txt ln hmem h1 h2 h3
    refine List.mem_filter.2 ⟨hmem, ?_⟩
    simp [keepLine, h1, h2, h3]
  · intro txt h
    by_cases he : txt = ""
    · subst he
      exact absurd h (by decide)
    · show (if txt = "" then "" else _) = _
      rw [if_neg he]
      show (if 160 < (pyWords (synText txt)).length then _ else synText txt) = _
      rw [if_pos h]
  · intro txt h
    by_cases he : txt = ""
    · subst he
      rfl
    · show (if txt = "" then "" else _) = _
      rw [if_neg he]
      show (if 160 < (pyWords (synText txt)).length then _ else synText txt) = _
      rw [if_neg h]

theorem clean_synopsis_witness :
    ("En god film.") ∈ cleanLines ("Køb billetter\nEn god film.") ∧
    clean_synopsis ("Køb billetter\nEn god film.") = "En god film." :=
  ⟨clean_synopsis_spec.2.2.1 ("Køb billetter\nEn god film.") ("En god film.")
     (by decide) (by decide) (by decide) (by decide),
   (clean_synopsis_spec.2.2.2.2 ("Køb billetter\nEn god film.") (by decide)).trans
     (by decide)⟩

/-- C5: `extract_title` resolves a title by trying, in order, `og:title`,
`twitter:title`, JSON-LD `name`, first `h1`/`h2` text, the document
title, and finally the URL's last path segment; a strategy wins with the
first candidate that is truthy and whose stripped form is not
case-insensitively the brand name `"Cinemateket"`; in particular a
document with `og:title` `"Cinemateket"` and an `h1` `"Stalker"` yields
`"Stalker"`. -/
theorem extract_title_spec :
    (∀ doc u c, doc.ogTitle = some c → c ≠ "" → lowerStr (pyStrip c) ≠ ("cinemateket") →
      extract_title doc u = pyStrip c) ∧
    (∀ doc u c, titleFromOg doc = none → doc.twTitle = some c → c ≠ "" →
      lowerStr (pyStrip c) ≠ ("cinemateket") → extract_title doc u = pyStrip c) ∧
    (∀ doc u n, titleFromOg doc = none → titleFromTw doc = none →
      firstLdName doc.ldNameLists = some n → extract_title doc u = n) ∧
    (∀ doc u hv, titleFromOg doc = none → titleFromTw doc = none →
      firstLdName doc.ldNameLists = none → doc.firstHeading = some hv → hv ≠ "" →
      lowerStr hv ≠ ("cinemateket") → extract_title doc u = hv) ∧
    (∀ doc u t, titleFromOg doc = none → titleFromTw doc = none →
      firstLdName doc.ldNameLists = none → titleFromHeading doc = none →
      doc.titleTag = some t → t ≠ "" → lowerStr t ≠ ("cinemateket") →
      extract_title doc u = t) ∧
    (∀ doc u, titleFromOg doc = none → titleFromTw doc = none →
      firstLdName doc.ldNameLists = none → titleFromHeading doc = none →
      titleFromTag doc = none → extract_title doc u = slugFromPath u.path) ∧
    extract_title { ogTitle := some ("Cinemateket"), firstHeading := some ("Stalker") }
      ⟨("https"), ("www.dfi.dk"), ("/cinemateket/biograf/alle-film/film/stalker")⟩
      = "Stalker" := by
  refine ⟨?_, ?_, ?_, ?_, ?_, ?_, by decide⟩
  · intro doc u c h1 h2 h3
    have hog : titleFromOg doc = some (pyStrip c) := by
      simp [titleFromOg, h1, h2, h3]
    simp [extract_title, hog]
  · intro doc u c hog h1 h2 h3
    have htw : titleFromTw doc = some (pyStrip c) := by
      simp [titleFromTw, h1, h2, h3]
    simp [extract_title, hog, htw]
  · intro doc u n hog htw hld
    simp [extract_title, hog, htw, hld]
  · intro doc u hv hog htw hld h1 h2 h3
    have hh : titleFromHeading doc = some hv := by
      simp [titleFromHeading, h1, h2, h3]
    simp [extract_title, hog, htw, hld, hh]
  · intro doc u t hog htw hld hh h1 h2 h3
    have ht : titleFromTag doc = some t := by
      simp [titleFromTag, h1, h2, h3]
    simp [extract_title, hog, htw, hld, hh, ht]
  · intro doc u hog htw hld hh ht
    simp [extract_title, hog, htw, hld, hh, ht]

theorem extract_title_witness :
    extract_title
      { ogTitle := some ("Cinemateket"), twTitle := none, ldNameLists := [],
        firstHeading := some ("Stalker"), titleTag := none }
      ⟨("https"), ("www.dfi.dk"), ("/cinemateket/biograf/alle-film/film/stalker")⟩
      = "Stalker" :=
  extract_title_spec.2.2.2.1 _ _ ("Stalker") (by decide) rfl rfl rfl (by decide) (by decide)

/-- C2 counterexample: with `mode=range`, an absent `from` bound and a
present `to` bound, `/program` answers 200 with a ScheduleResponse (the
empty one here), not 400 — `from` is defaulted to today before the
range check. -/
theorem program_range_missing_from_is_ok :
    program { mode := some ("range"), fromArg := none, toArg := some ("2025-12-31") }
      ("2025-10-12") 2025 [] [] (fun _ => none)
      [{ label := "Mandag 3. marts", entries := [] }] = ProgResp.ok [] := by decide

/-- The 400 early return of the day loop: once a day label parses, a
falsy `from` or `to` value aborts the scan. -/
theorem scanDays_falsy_bound_none (mode d_from : String) (d_to : Option String)
    (today : String) (year : Nat) (reg : List (Url × String))
    (meta : List (String × SeriesMeta)) (details : Url → Option ItemDetail)
    (hmode : mode ≠ "all") (hto : d_from = "" ∨ d_to = none ∨ d_to = some "") :
    ∀ (days : List DayBlock) (smap : List (String × SeriesData)),
      (∃ d ∈ days, iso_from_label d.label year ≠ none) →
      scanDays mode d_from d_to today year reg meta details days smap = none := by
  intro days
  induction days with
  | nil =>
    intro smap hex
    simp at hex
  | cons d rest ih =>
    intro smap hex
    cases hiso : iso_from_label d.label year with
    | none =>
      have hex' : ∃ d ∈ rest, iso_from_label d.label year ≠ none := by
        rcases hex with ⟨d', hd', hne⟩
        rcases List.mem_cons.1 hd' with rfl | hd'
        · exact absurd hiso hne
        · exact ⟨d', hd', hne⟩
      simp only [scanDays, hiso]
      exact ih smap hex'
    | some iso =>
      simp only [scanDays, hiso]
      rw [if_neg (by simpa using hmode)]
      have hcond : (d_from = "" || d_to = none || d_to = some "") = true := by
        rcases hto with h | h | h <;> simp [h]
      rw [if_pos (by simpa using hcond)]

/-- C2 amended: with `mode=range`, the call fails with 400 exactly on a
falsy bound — a missing or empty `to`, or an explicitly empty `from` —
provided at least one day block's label parses (the check runs inside the
per-day loop); a merely absent `from` is defaulted to today's date and
does not cause 400. -/
theorem program_range_missing_to_badRequest (args : Args) (today : String) (year : Nat)
    (reg : List (Url × String)) (meta : List (String × SeriesMeta))
    (details : Url → Option ItemDetail) (days : List DayBlock)
    (hm : args.mode = some ("range"))
    (hto : args.fromArg.getD today = "" ∨ args.toArg = none ∨ args.toArg = some "")
    (hday : ∃ d ∈ days, iso_from_label d.label year ≠ none) :
    program args today year reg meta details days = ProgResp.badRequest := by
  unfold program
  rw [hm]
  simp only [Option.getD_some]
  rw [scanDays_falsy_bound_none ("range") (args.fromArg.getD today) args.toArg today year
    reg meta details (by decide) hto days [] hday]

theorem program_range_missing_to_witness :
    program { mode := some ("range"), fromArg := some ("2025-10-01"), toArg := none }
      ("2025-10-12") 2025 [] [] (fun _ => none)
      [{ label := "Mandag 3. marts", entries := [] }] = ProgResp.badRequest :=
  program_range_missing_to_badRequest _ _ 2025 _ _ _ _ rfl (Or.inr (Or.inl rfl))
    ⟨_, List.mem_cons_self _ _, by decide⟩

/-- Fold invariant of the per-series anchor harvest: only allowlisted
hrefs are inserted, always mapped to `sname`. -/
theorem anchors_fold_inv (P : Url × String → Prop) (sname : String)
    (hP : ∀ u, allowed u = true → P (u, sname)) (anchors : List Url) :
    ∀ b, (∀ kv ∈ b, P kv) →
      ∀ kv ∈ anchors.foldl (fun b ih => if allowed ih then dinsert ih sname b else b) b,
        P kv := by
  induction anchors with
  | nil => intro b hb; simpa using hb
  | cons a rest ih =>
    intro b hb
    simp only [List.foldl_cons]
    by_cases ha : allowed a
    · rw [if_pos ha]
      exact ih (dinsert a sname b) (dinsert_forall P a sname b hb (hP a ha))
    · rw [if_neg ha]
      exact ih b hb

/-- Fold invariant of the primary registry strategy. -/
theorem buildPrimaryGo_inv (P : Url × String → Prop) :
    ∀ (pages : List SeriesPage) (seen : List Url) (by_href : List (Url × String))
      (meta : List (String × SeriesMeta)),
      (∀ p ∈ pages, ∀ u, allowed u = true → P (u, seriesName p)) →
      (∀ kv ∈ by_href, P kv) →
      ∀ kv ∈ (buildPrimaryGo pages seen by_href meta).1, P kv := by
  intro pages
  induction pages with
  | nil => intro seen by_href meta _ hb; simpa [buildPrimaryGo] using hb
  | cons p rest ih =>
    intro seen by_href meta hpages hb
    simp only [buildPrimaryGo]
    by_cases hseen : p.url ∈ seen
    · rw [if_pos hseen]
      exact ih seen by_href meta (fun q hq => hpages q (List.mem_cons_of_mem _ hq)) hb
    · rw [if_neg hseen]
      exact ih _ _ _ (fun q hq => hpages q (List.mem_cons_of_mem _ hq))
        (anchors_fold_inv P (seriesName p)
          (hpages p (List.mem_cons_self _ _)) p.itemAnchors by_href hb)

/-- Fold invariant of the fallback registry strategy. -/
theorem buildFallbackGo_inv (P : Url × String → Prop) :
    ∀ (items : List FallbackItem) (seen : List Url) (by_href : List (Url × String))
      (meta : List (String × SeriesMeta)),
      (∀ i ∈ items, ∀ sp, i.seriesLink = some sp →
        allowed i.url = true → P (i.url, seriesName sp)) →
      (∀ kv ∈ by_href, P kv) →
      ∀ kv ∈ (buildFallbackGo items seen by_href meta).1, P kv := by
  intro items
  induction items with
  | nil => intro seen by_href meta _ hb; simpa [buildFallbackGo] using hb
  | cons it rest ih =>
    intro seen by_href meta hitems hb
    simp only [buildFallbackGo]
    by_cases hskip : (!allowed it.url || decide (it.url ∈ seen)) = true
    · rw [if_pos hskip]
      exact ih seen by_href meta (fun q hq => hitems q (List.mem_cons_of_mem _ hq)) hb
    · rw [if_neg hskip]
      have hall : allowed it.url = true := by
        by_contra hna
        have : allowed it.url = false := Bool.not_eq_true _ ▸ hna
        exact hskip (by simp [this])
      cases hsl : it.seriesLink with
      | none =>
        exact ih _ _ _ (fun q hq => hitems q (List.mem_cons_of_mem _ hq)) hb
      | some sp =>
        exact ih _ _ _ (fun q hq => hitems q (List.mem_cons_of_mem _ hq))
          (dinsert_forall P it.url (seriesName sp) by_href hb
            (hitems it (List.mem_cons_self _ _) sp hsl hall))

/-- C9: every href stored as a key of the registry — under the primary
series-index strategy or the fallback strategy — satisfies the host+path
allowlist predicate; the builder never introduces the `"Uden for serie"`
sentinel itself (every stored value is a crawled page's series name, so
whenever no crawled page is titled like the sentinel, the sentinel is
absent from the registry); and the sentinel arises only at join time, as
`joinSeriesName`'s default for hrefs absent from the registry. -/
theorem registry_allowlist_and_sentinel (pages : List SeriesPage)
    (fbItems : List FallbackItem) :
    (∀ kv ∈ (build_series_registry pages fbItems).1, allowed kv.1 = true) ∧
    ((∀ p ∈ pages, seriesName p ≠ ("Uden for serie")) →
      (∀ i ∈ fbItems, ∀ sp, i.seriesLink = some sp → seriesName sp ≠ ("Uden for serie")) →
      ∀ kv ∈ (build_series_registry pages fbItems).1, kv.2 ≠ ("Uden for serie")) ∧
    (∀ (reg : List (Url × String)) (u : Url), alookup u reg = none →
      joinSeriesName reg u = ("Uden for serie")) ∧
    (∀ (reg : List (Url × String)) (u : Url) (v : String), alookup u reg = some v →
      joinSeriesName reg u = v) := by
  have hbuild : ∀ (P : Url × String → Prop),
      (∀ p ∈ pages, ∀ u, allowed u = true → P (u, seriesName p)) →
      (∀ i ∈ fbItems, ∀ sp, i.seriesLink = some sp →
        allowed i.url = true → P (i.url, seriesName sp)) →
      ∀ kv ∈ (build_series_registry pages fbItems).1, P kv := by
    intro P hp hf
    unfold build_series_registry
    by_cases he : (buildPrimaryGo pages [] [] []).1.isEmpty
    · rw [if_pos he]
      exact buildFallbackGo_inv P fbItems [] _ _ hf
        (by
          intro kv hkv
          rw [List.isEmpty_iff.1 he] at hkv
          exact absurd hkv (List.not_mem_nil kv))
    · rw [if_neg he]
      exact buildPrimaryGo_inv P pages [] [] [] hp (by intro kv hkv; simp at hkv)
  refine ⟨?_, ?_, ?_, ?_⟩
  · exact hbuild (fun kv => allowed kv.1 = true) (fun _ _ _ h => h) (fun _ _ _ _ h => h)
  · intro hp hf
    exact hbuild (fun kv => kv.2 ≠ ("Uden for serie"))
      (fun p hp' _ _ => hp p hp') (fun i hi sp hsl _ => hf i hi sp hsl)
  · intro reg u h
    unfold joinSeriesName
    rw [h]
    rfl
  · intro reg u v h
    unfold joinSeriesName
    rw [h]
    rfl

theorem registry_witness :
    allowed (⟨("https"), ("www.dfi.dk"), ("/cinemateket/biograf/alle-film/film/stalker")⟩) =
        true ∧
      ("Tarkovskij" : String) ≠ "Uden for serie" ∧
      joinSeriesName []
        (⟨("https"), ("www.dfi.dk"), ("/cinemateket/biograf/alle-film/film/stalker")⟩) =
        "Uden for serie" :=
  ⟨(registry_allowlist_and_sentinel
      [{ url := ⟨("https"), ("www.dfi.dk"), ("/cinemateket/biograf/filmserier/serie/tarkovskij")⟩,
         doc := {}, paras := [], banner := none,
         itemAnchors :=
           [⟨("https"), ("www.dfi.dk"), ("/cinemateket/biograf/alle-film/film/stalker")⟩,
            ⟨("https"), ("evil.example"), ("/cinemateket/biograf/alle-film/film/ond")⟩] }] []).1
    (⟨("https"), ("www.dfi.dk"), ("/cinemateket/biograf/alle-film/film/stalker")⟩, "Tarkovskij")
    (by decide),
   (registry_allowlist_and_sentinel
      [{ url := ⟨("https"), ("www.dfi.dk"), ("/cinemateket/biograf/filmserier/serie/tarkovskij")⟩,
         doc := {}, paras := [], banner := none,
         itemAnchors :=
           [⟨("https"), ("www.dfi.dk"), ("/cinemateket/biograf/alle-film/film/stalker")⟩] }] []).2.1
    (by decide) (by decide)
    (⟨("https"), ("www.dfi.dk"), ("/cinemateket/biograf/alle-film/film/stalker")⟩, "Tarkovskij")
    (by decide),
   (registry_allowlist_and_sentinel [] []).2.2.1 []
     (⟨("https"), ("www.dfi.dk"), ("/cinemateket/biograf/alle-film/film/stalker")⟩) rfl⟩

/-! ### C7: order and non-emptiness of the ScheduleResponse -/

theorem itemLe_total (x y : AggItem) : itemLe x y || itemLe y x :=
  strLe_total _ _

theorem itemLe_trans (x y z : AggItem) (h1 : itemLe x y = true) (h2 : itemLe y z = true) :
    itemLe x z = true :=
  strLe_trans _ _ _ h1 h2

theorem groupLe_total (s t : SeriesGroup) : groupLe s t || groupLe t s := by
  unfold groupLe
  by_cases h : first_dt s = first_dt t
  · rw [if_pos h, if_pos h.symm]
    exact strLe_total _ _
  · rw [if_neg h, if_neg (Ne.symm h)]
    exact strLe_total _ _

theorem groupLe_trans (s t u : SeriesGroup) (h1 : groupLe s t = true)
    (h2 : groupLe t u = true) : groupLe s u = true := by
  unfold groupLe at h1 h2 ⊢
  by_cases e1 : first_dt s = first_dt t
  · by_cases e2 : first_dt t = first_dt u
    · rw [if_pos e1] at h1
      rw [if_pos e2] at h2
      rw [if_pos (e1.trans e2)]
      exact strLe_trans _ _ _ h1 h2
    · rw [if_neg e2] at h2
      rw [if_neg (e1 ▸ e2)]
      rw [e1]
      exact h2
  · by_cases e2 : first_dt t = first_dt u
    · rw [if_neg e1] at h1
      rw [if_neg (fun hsu => e1 (hsu.trans e2.symm))]
      rw [← e2]
      exact h1
    · rw [if_neg e1] at h1
      rw [if_neg e2] at h2
      have hle : strLe (first_dt s) (first_dt u) = true := strLe_trans _ _ _ h1 h2
      have hne : first_dt s ≠ first_dt u := by
        intro hsu
        exact e1 (strLe_antisymm _ _ h1 (hsu ▸ h2))
      rw [if_neg hne]
      exact hle

/-- The output-building step alone already guarantees all four order
properties, for any series map. -/
theorem buildOut_props (smap : List (String × SeriesData)) :
    (∀ g ∈ buildOut smap, g.items ≠ []) ∧
    (∀ g ∈ buildOut smap, ∀ it ∈ g.items,
      List.Pairwise (fun a b => strLe a b = true) it.dates) ∧
    (∀ g ∈ buildOut smap, List.Pairwise (fun a b => itemLe a b = true) g.items) ∧
    List.Pairwise (fun s t => groupLe s t = true) (buildOut smap) := by
  unfold buildOut
  have hmem : ∀ g ∈ buildOut smap,
      ∃ p ∈ smap,
        ¬ (p.2.items.map (fun q => { q.2 with dates := pySort strLe q.2.dates })).isEmpty ∧
        g = { name := p.1, intro := p.2.intro, banner := p.2.banner,
              items := pySort itemLe
                (p.2.items.map (fun q => { q.2 with dates := pySort strLe q.2.dates })) } := by
    intro g hg
    rw [buildOut, mem_pySort] at hg
    rcases List.mem_filterMap.1 hg with ⟨p, hp, hsome⟩
    by_cases he : (p.2.items.map (fun q => { q.2 with dates := pySort strLe q.2.dates })).isEmpty
    · rw [if_pos he] at hsome
      exact absurd hsome (by simp)
    · rw [if_neg he] at hsome
      exact ⟨p, hp, he, (Option.some_injective _ hsome).symm⟩
  refine ⟨?_, ?_, ?_, ?_⟩
  · intro g hg
    rcases hmem g hg with ⟨p, _, he, rfl⟩
    intro hnil
    apply he
    rw [List.isEmpty_iff]
    have hperm := pySort_perm itemLe
      (p.2.items.map (fun q => { q.2 with dates := pySort strLe q.2.dates }))
    have hnil' : pySort itemLe
        (p.2.items.map (fun q => { q.2 with dates := pySort strLe q.2.dates })) = [] := hnil
    rw [hnil'] at hperm
    exact List.Perm.eq_nil hperm.symm
  · intro g hg it hit
    rcases hmem g hg with ⟨p, _, _, rfl⟩
    replace hit : it ∈ pySort itemLe
        (p.2.items.map (fun q => { q.2 with dates := pySort strLe q.2.dates })) := hit
    rw [mem_pySort] at hit
    rcases List.mem_map.1 hit with ⟨q, _, rfl⟩
    exact pySort_pairwise strLe strLe_total strLe_trans q.2.dates
  · intro g hg
    rcases hmem g hg with ⟨p, _, _, rfl⟩
    exact pySort_pairwise itemLe itemLe_total itemLe_trans _
  · exact pySort_pairwise groupLe groupLe_total groupLe_trans _

/-- C7: in every successful ScheduleResponse, no series group has zero
items, every item's dates list is sorted ascending, every group's items
are sorted by earliest date ascending, and the groups are sorted by the
pair (earliest item date, series name) ascending. -/
theorem scheduleResponse_sorted (args : Args) (today : String) (year : Nat)
    (reg : List (Url × String)) (meta : List (String × SeriesMeta))
    (details : Url → Option ItemDetail) (days : List DayBlock)
    (series : List SeriesGroup)
    (h : program args today year reg meta details days = ProgResp.ok series) :
    (∀ g ∈ series, g.items ≠ []) ∧
    (∀ g ∈ series, ∀ it ∈ g.items,
      List.Pairwise (fun a b => strLe a b = true) it.dates) ∧
    (∀ g ∈ series, List.Pairwise (fun a b => itemLe a b = true) g.items) ∧
    List.Pairwise (fun s t => groupLe s t = true) series := by
  unfold program at h
  replace h :
      (match scanDays (args.mode.getD ("all")) (args.fromArg.getD today) args.toArg today
          year reg meta details days [] with
        | none => ProgResp.badRequest
        | some smap => ProgResp.ok (buildOut smap)) = ProgResp.ok series := h
  rcases hs : scanDays (args.mode.getD ("all")) (args.fromArg.getD today) args.toArg today
      year reg meta details days [] with _ | smap
  · rw [hs] at h
    exact absurd h (by simp)
  · rw [hs] at h
    have hser : buildOut smap = series := by simpa using h
    rw [← hser]
    exact buildOut_props smap

theorem scheduleResponse_sorted_witness :
    List.Pairwise (fun s t => groupLe s t = true)
      [{ name := "Tarkovskij", intro := "Serieintro", banner := none,
         items := [{ url := ⟨("https"), ("www.dfi.dk"),
                       ("/cinemateket/biograf/alle-film/film/stalker")⟩,
                     title := "Stalker", image := none, synopsis := "En zone.",
                     times := ["18:00", "20:30"],
                     dates := ["2025-10-25 18:00", "2025-10-25 20:30"] }] }] :=
  (scheduleResponse_sorted { } ("2025-10-01") 2025
      [(⟨("https"), ("www.dfi.dk"), ("/cinemateket/biograf/alle-film/film/stalker")⟩,
        "Tarkovskij")]
      [("Tarkovskij", { intro := "Serieintro", banner := none })]
      (fun _ => some { title := "Stalker", synopsis := "En zone.", image := none,
                       times := ["18:00", "20:30"] })
      [{ label := "Lørdag 25. oktober",
         entries := [{ time := "00:00", title := "Stalker",
                       href := some ⟨("https"), ("www.dfi.dk"),
                         ("/cinemateket/biograf/alle-film/film/stalker")⟩ }] }]
      _ (by decide)).2.2.2

/-! ### C10: generated day labels round-trip through `iso_from_label` -/

theorem digitVal_digitChar (k : Nat) (h : k < 10) : digitVal (digitChar k) = k := by
  interval_cases k <;> decide

theorem isDigitPy_digitChar (k : Nat) (h : k < 10) : isDigitPy (digitChar k) = true := by
  interval_cases k <;> decide

theorem digitChar_ne_dash (k : Nat) : digitChar k ≠ '-' := by
  unfold digitChar
  split <;> decide

theorem isSpacePy_digitChar (k : Nat) : isSpacePy (digitChar k) = false := by
  unfold digitChar
  split <;> decide

theorem natFromDigits_pad2 (n : Nat) (h : n ≤ 99) : natFromDigits (pad2 n) = n := by
  unfold natFromDigits pad2
  simp only [List.foldl_cons, List.foldl_nil]
  rw [digitVal_digitChar _ (by omega), digitVal_digitChar _ (by omega)]
  omega

theorem natFromDigits_pad4 (n : Nat) (h : n ≤ 9999) : natFromDigits (pad4 n) = n := by
  unfold natFromDigits pad4
  simp only [List.foldl_cons, List.foldl_nil]
  rw [digitVal_digitChar _ (by omega), digitVal_digitChar _ (by omega),
    digitVal_digitChar _ (by omega), digitVal_digitChar _ (by omega)]
  omega

theorem splitChar_no_sep (p : Char → Bool) (cs : List Char)
    (h : ∀ c ∈ cs, p c = false) : splitChar p cs = [cs] := by
  induction cs with
  | nil => rfl
  | cons c rest ih =>
    simp only [splitChar]
    rw [if_neg (by simp [h c (List.mem_cons_self _ _)])]
    rw [ih (fun c' hc' => h c' (List.mem_cons_of_mem _ hc'))]

theorem splitChar_append (p : Char → Bool) (sep : Char) (cs rest : List Char)
    (h : ∀ c ∈ cs, p c = false) (hsep : p sep = true) :
    splitChar p (cs ++ sep :: rest) = cs :: splitChar p rest := by
  induction cs with
  | nil =>
    simp only [List.nil_append, splitChar]
    rw [if_pos hsep]
  | cons c tail ih =>
    simp only [List.cons_append, splitChar]
    rw [if_neg (by simp [h c (List.mem_cons_self _ _)])]
    rw [List.append_eq, ih (fun c' hc' => h c' (List.mem_cons_of_mem _ hc'))]

theorem pad2_no_dash (n : Nat) : ∀ c ∈ pad2 n, (c = '-' : Bool) = false := by
  intro c hc
  unfold pad2 at hc
  rcases List.mem_cons.1 hc with rfl | hc
  · simp [digitChar_ne_dash]
  · rcases List.mem_cons.1 hc with rfl | hc
    · simp [digitChar_ne_dash]
    · exact absurd hc (List.not_mem_nil c)

theorem pad4_no_dash (n : Nat) : ∀ c ∈ pad4 n, (c = '-' : Bool) = false := by
  intro c hc
  unfold pad4 at hc
  rcases List.mem_cons.1 hc with rfl | hc
  · simp [digitChar_ne_dash]
  · rcases List.mem_cons.1 hc with rfl | hc
    · simp [digitChar_ne_dash]
    · rcases List.mem_cons.1 hc with rfl | hc
      · simp [digitChar_ne_dash]
      · rcases List.mem_cons.1 hc with rfl | hc
        · simp [digitChar_ne_dash]
        · exact absurd hc (List.not_mem_nil c)

theorem parseIsoNums_isoStr (y m d : Nat) (hy : y ≤ 9999) (hm : m ≤ 99) (hd : d ≤ 99) :
    parseIsoNums (isoStr y m d) = (y, m, d) := by
  unfold parseIsoNums isoStr
  have h1 : splitChar (fun c => (c = '-' : Bool)) (pad4 y ++ '-' :: (pad2 m ++ '-' :: pad2 d)) =
      pad4 y :: splitChar (fun c => (c = '-' : Bool)) (pad2 m ++ '-' :: pad2 d) :=
    splitChar_append _ '-' (pad4 y) _ (pad4_no_dash y) (by decide)
  have h2 : splitChar (fun c => (c = '-' : Bool)) (pad2 m ++ '-' :: pad2 d) =
      pad2 m :: splitChar (fun c => (c = '-' : Bool)) (pad2 d) :=
    splitChar_append _ '-' (pad2 m) _ (pad2_no_dash m) (by decide)
  have h3 : splitChar (fun c => (c = '-' : Bool)) (pad2 d) = [pad2 d] :=
    splitChar_no_sep _ _ (pad2_no_dash d)
  show (match (splitChar (fun c => (c = '-' : Bool))
      (pad4 y ++ '-' :: (pad2 m ++ '-' :: pad2 d))).map natFromDigits with
    | [y, m, d] => (y, m, d)
    | _ => (0, 0, 0)) = (y, m, d)
  rw [h1, h2, h3]
  simp only [List.map_cons, List.map_nil]
  rw [natFromDigits_pad4 y hy, natFromDigits_pad2 m hm, natFromDigits_pad2 d hd]

theorem parseDayDot_natDigits (d : Nat) (h1 : 1 ≤ d) (h2 : d ≤ 99) (t : List Char) :
    parseDayDot (natDigits d ++ '.' :: t) = some (d, t) := by
  unfold natDigits
  by_cases hd : d < 10
  · rw [if_pos hd]
    simp only [List.cons_append, List.nil_append, parseDayDot]
    rw [if_pos (isDigitPy_digitChar d hd)]
    rw [if_neg (by rw [(by decide : (isDigitPy '.') = false)]; exact Bool.false_ne_true)]
    simp only [if_true]
    rw [digitVal_digitChar d hd]
  · rw [if_neg hd]
    simp only [List.cons_append, List.nil_append, parseDayDot]
    rw [if_pos (isDigitPy_digitChar _ (by omega))]
    rw [if_pos (isDigitPy_digitChar _ (by omega))]
    rw [digitVal_digitChar _ (by omega), digitVal_digitChar _ (by omega)]
    have : d / 10 * 10 + d % 10 = d := by omega
    rw [this]

theorem natDigits_dropWhile (d : Nat) (l : List Char) :
    (natDigits d ++ l).dropWhile isSpacePy = natDigits d ++ l := by
  unfold natDigits
  by_cases hd : d < 10
  · rw [if_pos hd]
    simp [List.dropWhile_cons, isSpacePy_digitChar]
  · rw [if_neg hd]
    simp [List.dropWhile_cons, isSpacePy_digitChar]

theorem strMkData (s : String) : String.mk s.data = s := rfl

theorem pyStrip_mk_noop (cs : List Char)
    (h1 : cs.dropWhile isSpacePy = cs)
    (h2 : cs.reverse.dropWhile isSpacePy = cs.reverse) :
    pyStrip (String.mk cs) = String.mk cs := by
  unfold pyStrip
  show String.mk (((cs.dropWhile isSpacePy).reverse.dropWhile isSpacePy).reverse) = _
  rw [h1, h2, List.reverse_reverse]

theorem weekday_facts (wd : String) (hwd : wd ∈ WEEKDAYS) :
    (∀ rest, matchAlts WEEKDAYS (wd.data ++ rest) = some rest) ∧
    (∀ rest, (wd.data ++ rest).dropWhile isSpacePy = wd.data ++ rest) := by
  simp only [WEEKDAYS, List.mem_cons, List.not_mem_nil, or_false] at hwd
  rcases hwd with rfl | rfl | rfl | rfl | rfl | rfl | rfl <;>
    exact ⟨fun rest => rfl, fun rest => rfl⟩

theorem getD_WEEKDAYS_mem (idx : Nat) (h : idx < 7) :
    WEEKDAYS.getD idx ("Mandag") ∈ WEEKDAYS := by
  interval_cases idx <;> decide

theorem weekdayIdx_lt (y m d : Nat) : weekdayIdx y m d < 7 := by
  unfold weekdayIdx
  have hn := Int.emod_nonneg (daysFromCivil y m d + 3) (by decide : (7 : Int) ≠ 0)
  have hl := Int.emod_lt_of_pos (daysFromCivil y m d + 3) (by decide : (0 : Int) < 7)
  omega

theorem monthName_facts (m : Nat) (h1 : 1 ≤ m) (h2 : m ≤ 12) :
    ((MONTH_NAMES.getD (m - 1) ("")).data.takeWhile isWordChar =
      (MONTH_NAMES.getD (m - 1) ("")).data) ∧
    (MONTH_NAMES.getD (m - 1) ("")).data ≠ [] ∧
    alookup (lowerStr (MONTH_NAMES.getD (m - 1) (""))) MONTHS = some m ∧
    (MONTH_NAMES.getD (m - 1) ("")).data.dropWhile isSpacePy =
      (MONTH_NAMES.getD (m - 1) ("")).data ∧
    (∀ l, ((MONTH_NAMES.getD (m - 1) ("")).data.reverse ++ l).dropWhile isSpacePy =
      (MONTH_NAMES.getD (m - 1) ("")).data.reverse ++ l) := by
  interval_cases m <;>
    exact ⟨by decide, by decide, by decide, by decide, fun l => rfl⟩

/-- Bounds packed inside a passing `validDate` check. -/
theorem validDate_bounds (y m d : Nat) (hv : validDate y m d = true) :
    1 ≤ y ∧ y ≤ 9999 ∧ 1 ≤ m ∧ m ≤ 12 ∧ 1 ≤ d ∧ d ≤ 31 := by
  unfold validDate daysInMonth isLeap at hv
  simp only [Bool.and_eq_true, decide_eq_true_eq] at hv
  split_ifs at hv <;> omega

/-- The generated label parses back to the ISO date it was generated
from. -/
theorem label_roundtrip (year m d : Nat) (hv : validDate year m d = true) :
    iso_from_label (dayLabel year m d) year = some (isoStr year m d) := by
  obtain ⟨hy1, hy2, hm1, hm2, hd1, hd2⟩ := validDate_bounds year m d hv
  obtain ⟨hwA, hwB⟩ := weekday_facts _ (getD_WEEKDAYS_mem _ (weekdayIdx_lt year m d))
  obtain ⟨hmA, hmB, hmC, hmD, hmE⟩ := monthName_facts m hm1 hm2
  have hstrip : pyStrip (dayLabel year m d) =
      String.mk ((WEEKDAYS.getD (weekdayIdx year m d) ("Mandag")).data
        ++ (' ' :: (natDigits d ++ ('.' :: ' ' ::
          (MONTH_NAMES.getD (m - 1) ("")).data)))) := by
    apply pyStrip_mk_noop
    · exact hwB _
    · have hre : (WEEKDAYS.getD (weekdayIdx year m d) ("Mandag")).data
          ++ (' ' :: (natDigits d ++ ('.' :: ' ' :: (MONTH_NAMES.getD (m - 1) ("")).data)))
          = ((WEEKDAYS.getD (weekdayIdx year m d) ("Mandag")).data
              ++ (' ' :: (natDigits d ++ ['.', ' '])))
            ++ (MONTH_NAMES.getD (m - 1) ("")).data := by
        simp [List.append_assoc]
      rw [hre, List.reverse_append]
      exact hmE _
  have h1 : (natDigits d ++ '.' :: ' ' :: (MONTH_NAMES.getD (m - 1) ("")).data).dropWhile
      isSpacePy = natDigits d ++ '.' :: ' ' :: (MONTH_NAMES.getD (m - 1) ("")).data :=
    natDigits_dropWhile d _
  have h2 : parseDayDot (natDigits d ++ '.' :: ' ' :: (MONTH_NAMES.getD (m - 1) ("")).data)
      = some (d, ' ' :: (MONTH_NAMES.getD (m - 1) ("")).data) :=
    parseDayDot_natDigits d hd1 (by omega) _
  have h3 : (' ' :: (MONTH_NAMES.getD (m - 1) ("")).data).dropWhile isSpacePy
      = (MONTH_NAMES.getD (m - 1) ("")).data := by
    rw [List.dropWhile_cons, if_pos (by decide)]
    exact hmD
  have hmatch : dayHeaderMatch
      ((WEEKDAYS.getD (weekdayIdx year m d) ("Mandag")).data
        ++ (' ' :: (natDigits d ++ ('.' :: ' ' :: (MONTH_NAMES.getD (m - 1) ("")).data))))
      = some (d, String.mk (MONTH_NAMES.getD (m - 1) ("")).data) := by
    unfold dayHeaderMatch
    rw [hwA]
    simp only [show isSpacePy ' ' = true by decide, if_true, h1, h2, h3, hmA]
    rw [if_neg (by simpa using hmB)]
  unfold iso_from_label
  rw [hstrip]
  have hmatch' : dayHeaderMatch (String.mk
      ((WEEKDAYS.getD (weekdayIdx year m d) ("Mandag")).data
        ++ (' ' :: (natDigits d ++ ('.' :: ' ' ::
          (MONTH_NAMES.getD (m - 1) ("")).data))))).data
      = some (d, String.mk (MONTH_NAMES.getD (m - 1) ("")).data) := hmatch
  rw [hmatch']
  have hmC' : alookup (lowerStr (String.mk (MONTH_NAMES.getD (m - 1) ("")).data)) MONTHS
      = some m := hmC
  simp only [hmC', hv, if_true]

theorem MONTHS_DA_range (k : String) (v : Nat) (h : alookup k MONTHS_DA = some v) :
    1 ≤ v ∧ v ≤ 12 := by
  have hall : ∀ p ∈ MONTHS_DA, 1 ≤ p.2 ∧ p.2 ≤ 12 := by decide
  exact hall _ (alookup_mem k MONTHS_DA v h)

/-- Every date `parse_dates_chunk` emits is a `validDate`-checked ISO
rendering in the given year. -/
theorem parse_dates_chunk_shape (year : Nat) (text : String) :
    ∀ iso ∈ parse_dates_chunk year text,
      ∃ m d, 1 ≤ m ∧ m ≤ 12 ∧ validDate year m d = true ∧ iso = isoStr year m d := by
  intro iso hmem
  unfold parse_dates_chunk at hmem
  rcases List.mem_filterMap.1 hmem with ⟨p, _, hp⟩
  rcases hs : searchDayMonth p.data with _ | dw
  · rw [hs] at hp
    exact absurd hp (by simp)
  · rw [hs] at hp
    obtain ⟨d, w⟩ := dw
    replace hp : (match alookup (lowerStr w) MONTHS_DA with
        | none => none
        | some mon =>
          if validDate year mon d = true then some (isoStr year mon d) else none)
        = some iso := hp
    rcases halk : alookup (lowerStr w) MONTHS_DA with _ | mon
    · rw [halk] at hp
      exact absurd hp (by simp)
    · rw [halk] at hp
      replace hp : (if validDate year mon d = true then some (isoStr year mon d) else none)
          = some iso := hp
      by_cases hval : validDate year mon d = true
      · rw [if_pos hval] at hp
        obtain ⟨h1, h2⟩ := MONTHS_DA_range _ _ halk
        exact ⟨mon, d, h1, h2, hval, (Option.some_injective _ hp).symm⟩
      · rw [if_neg hval] at hp
        exact absurd hp (by simp)

theorem dappend_fst {α β : Type} [DecidableEq α] (k : α) (e : β) (m : List (α × List β)) :
    (dappend k e m).map Prod.fst =
      if k ∈ m.map Prod.fst then m.map Prod.fst else m.map Prod.fst ++ [k] := by
  induction m with
  | nil => simp [dappend]
  | cons p rest ih =>
    obtain ⟨k', es⟩ := p
    simp only [dappend, List.map_cons]
    by_cases hk : k = k'
    · subst hk
      simp
    · rw [if_neg hk]
      simp only [List.map_cons, ih]
      by_cases hmem : k ∈ rest.map Prod.fst
      · rw [if_pos hmem, if_pos (by simp [hmem])]
      · rw [if_neg hmem, if_neg (by simp [hmem, hk])]
        simp

/-- Key invariant of the inner `day_map` fold: new keys come from the
resolved date list. -/
theorem foldl_dappend_inv {β : Type} (P : String → Prop) (ent : β) :
    ∀ (isos : List String) (m0 : List (String × List β)),
      (∀ k ∈ m0.map Prod.fst, P k) → (∀ iso ∈ isos, P iso) →
      (∀ k ∈ ((isos.foldl (fun m iso => dappend iso ent m) m0).map Prod.fst), P k) ∧
      ((m0.map Prod.fst).Nodup →
        ((isos.foldl (fun m iso => dappend iso ent m) m0).map Prod.fst).Nodup) := by
  intro isos
  induction isos with
  | nil => intro m0 h0 _; exact ⟨h0, fun h => h⟩
  | cons i rest ih =>
    intro m0 h0 hisos
    simp only [List.foldl_cons]
    have hkeys := dappend_fst i ent m0
    have h0' : ∀ k ∈ (dappend i ent m0).map Prod.fst, P k := by
      intro k hk
      rw [hkeys] at hk
      by_cases hmem : i ∈ m0.map Prod.fst
      · rw [if_pos hmem] at hk
        exact h0 k hk
      · rw [if_neg hmem] at hk
        rcases List.mem_append.1 hk with hk | hk
        · exact h0 k hk
        · rw [List.mem_singleton.1 hk]
          exact hisos i (List.mem_cons_self _ _)
    refine ⟨(ih (dappend i ent m0) h0'
        (fun x hx => hisos x (List.mem_cons_of_mem _ hx))).1, ?_⟩
    intro hnd
    apply (ih (dappend i ent m0) h0'
      (fun x hx => hisos x (List.mem_cons_of_mem _ hx))).2
    rw [hkeys]
    by_cases hmem : i ∈ m0.map Prod.fst
    · rw [if_pos hmem]
      exact hnd
    · rw [if_neg hmem]
      rw [List.nodup_append]
      exact ⟨hnd, List.nodup_singleton _, by simpa using hmem⟩

/-- The `day_map` keys: each is a valid ISO date of the current year, and
they are pairwise distinct (dict keys). -/
theorem dayMapOf_keys (year : Nat) (cards : List Card) :
    (∀ k ∈ (dayMapOf year cards).map Prod.fst,
      ∃ m d, 1 ≤ m ∧ m ≤ 12 ∧ validDate year m d = true ∧ k = isoStr year m d) ∧
    ((dayMapOf year cards).map Prod.fst).Nodup := by
  suffices h : ∀ (cs : List Card) (m0 : List (String × List Entry)),
      (∀ k ∈ m0.map Prod.fst,
        ∃ m d, 1 ≤ m ∧ m ≤ 12 ∧ validDate year m d = true ∧ k = isoStr year m d) →
      (m0.map Prod.fst).Nodup →
      (∀ k ∈ ((cs.foldl
          (fun m a =>
            if allowed a.href then
              (parse_dates_chunk year a.dateText).foldl
                (fun m iso =>
                  dappend iso { time := ("00:00"), title := a.title, href := some a.href } m)
                m
            else m)
          m0).map Prod.fst),
        ∃ m d, 1 ≤ m ∧ m ≤ 12 ∧ validDate year m d = true ∧ k = isoStr year m d) ∧
      ((cs.foldl
          (fun m a =>
            if allowed a.href then
              (parse_dates_chunk year a.dateText).foldl
                (fun m iso =>
                  dappend iso { time := ("00:00"), title := a.title, href := some a.href } m)
                m
            else m)
          m0).map Prod.fst).Nodup by
    exact h cards [] (by simp) (by simp)
  intro cs
  induction cs with
  | nil => intro m0 h0 hnd; exact ⟨h0, hnd⟩
  | cons a rest ih =>
    intro m0 h0 hnd
    simp only [List.foldl_cons]
    by_cases ha : allowed a.href
    · rw [if_pos ha]
      have hstep := foldl_dappend_inv
        (fun k => ∃ m d, 1 ≤ m ∧ m ≤ 12 ∧ validDate year m d = true ∧ k = isoStr year m d)
        ({ time := ("00:00"), title := a.title, href := some a.href } : Entry)
        (parse_dates_chunk year a.dateText) m0 h0 (parse_dates_chunk_shape year a.dateText)
      exact ih _ hstep.1 (hstep.2 hnd)
    · rw [if_neg ha]
      exact ih m0 h0 hnd

theorem alookup_of_mem_keys {α β : Type} [DecidableEq α] (k : α) (m : List (α × β))
    (h : k ∈ m.map Prod.fst) : ∃ v, alookup k m = some v := by
  induction m with
  | nil => simp at h
  | cons p rest ih =>
    obtain ⟨k', v'⟩ := p
    by_cases hk : k = k'
    · exact ⟨v', by simp [alookup, hk]⟩
    · simp only [List.map_cons, List.mem_cons] at h
      rcases h with h1 | h1
      · exact absurd h1 hk
      · rcases ih h1 with ⟨v, hv⟩
        exact ⟨v, by simpa [alookup, hk] using hv⟩

/-- C10: every day block `parse_calendar` emits carries a label that
round-trips through `iso_from_label` with the current year back to the
exact ISO date its entries were grouped under in `day_map`, and the
blocks come out in strictly ascending date order. -/
theorem parse_calendar_labels (year : Nat) (cards : List Card) :
    (∀ p ∈ parse_calendarPairs year cards,
      iso_from_label p.2.label year = some p.1 ∧
      alookup p.1 (dayMapOf year cards) = some p.2.entries) ∧
    List.Pairwise (fun p q => strLt p.1 q.1 = true) (parse_calendarPairs year cards) ∧
    parse_calendar year cards = (parse_calendarPairs year cards).map Prod.snd := by
  obtain ⟨hshape, hnodup⟩ := dayMapOf_keys year cards
  refine ⟨?_, ?_, rfl⟩
  · intro p hp
    unfold parse_calendarPairs at hp
    rcases List.mem_map.1 hp with ⟨iso, hiso, rfl⟩
    rw [mem_pySort] at hiso
    obtain ⟨m, d, hm1, hm2, hval, rfl⟩ := hshape iso hiso
    obtain ⟨hy1, hy2, _, _, _, hd2⟩ := validDate_bounds year m d hval
    have hparse : parseIsoNums (isoStr year m d) = (year, m, d) :=
      parseIsoNums_isoStr year m d hy2 (by omega) (by omega)
    constructor
    · show iso_from_label (dayLabel (parseIsoNums (isoStr year m d)).1
        (parseIsoNums (isoStr year m d)).2.1 (parseIsoNums (isoStr year m d)).2.2) year
        = some (isoStr year m d)
      rw [hparse]
      exact label_roundtrip year m d hval
    · show alookup (isoStr year m d) (dayMapOf year cards) =
        some ((alookup (isoStr year m d) (dayMapOf year cards)).getD [])
      rcases alookup_of_mem_keys (isoStr year m d) (dayMapOf year cards) hiso with ⟨v, hv⟩
      rw [hv]
      rfl
  · unfold parse_calendarPairs
    rw [List.pairwise_map]
    have hsorted := pySort_pairwise strLe strLe_total strLe_trans
      ((dayMapOf year cards).map Prod.fst)
    have hnd : (pySort strLe ((dayMapOf year cards).map Prod.fst)).Nodup :=
      ((pySort_perm strLe _).nodup_iff).2 hnodup
    have hcomb := List.Pairwise.and hsorted hnd
    refine hcomb.imp ?_
    rintro a b ⟨hle, hne⟩
    simp [strLt, hle, hne]

theorem parse_calendar_labels_witness :
    iso_from_label ("Lørdag 25. oktober") 2025 = some ("2025-10-25") := by
  have h := ((parse_calendar_labels 2025
      [{ href := ⟨("https"), ("www.dfi.dk"), ("/cinemateket/biograf/alle-film/film/stalker")⟩,
         title := "Stalker", dateText := "25. okt" }]).1
    ((("2025-10-25") : String),
      ({ label := "Lørdag 25. oktober",
         entries :=
           [{ time := "00:00", title := "Stalker",
              href := some ⟨("https"), ("www.dfi.dk"),
                ("/cinemateket/biograf/alle-film/film/stalker")⟩ }] } : DayBlock))
    (by decide)).1
  exact h

/-! ### The aggregation invariant justifying the total `first_dt` model:
every item stored in `series_map` has a non-empty dates list. -/

theorem recordDates_ne_nil (times : List String) (etime iso : String)
    (dates : List String) : recordDates times etime iso dates ≠ [] := by
  have hfold : ∀ (g : String → String) (ts : List String) (ds : List String), ds ≠ [] →
      ts.foldl (fun ds tm => if g tm ∈ ds then ds else ds ++ [g tm]) ds ≠ [] := by
    intro g ts
    induction ts with
    | nil => intro ds h; exact h
    | cons t ts' ih =>
      intro ds h
      simp only [List.foldl_cons]
      by_cases hm : g t ∈ ds
      · rw [if_pos hm]; exact ih ds h
      · rw [if_neg hm]; exact ih _ (by simp)
  unfold recordDates
  by_cases hc : (times ≠ ([] : List String) && etime = ("00:00")) = true
  · rw [if_pos hc]
    rcases times with _ | ⟨t, ts⟩
    · simp at hc
    · simp only [List.foldl_cons]
      by_cases hm : iso ++ " " ++ t ∈ dates
      · rw [if_pos hm]
        rcases dates with _ | _
        · simp at hm
        · exact hfold _ ts _ (by simp)
      · rw [if_neg hm]
        exact hfold _ ts _ (by simp)
  · rw [if_neg hc]
    by_cases hm : iso ++ " " ++ etime ∈ dates
    · rw [if_pos hm]
      rcases dates with _ | _
      · simp at hm
      · simp
    · rw [if_neg hm]
      simp

theorem alookup_none_not_mem {α β : Type} [DecidableEq α] (k : α) (l : List (α × β))
    (h : alookup k l = none) : ∀ v, (k, v) ∉ l := by
  intro v hv
  induction l with
  | nil => exact absurd hv (List.not_mem_nil _)
  | cons p rest ih =>
    obtain ⟨k', v'⟩ := p
    simp only [alookup] at h
    by_cases hk : k = k'
    · rw [if_pos hk] at h
      exact absurd h (by simp)
    · rw [if_neg hk] at h
      rcases List.mem_cons.1 hv with heq | hv'
      · exact hk (congrArg Prod.fst heq)
      · exact ih h hv'

theorem updAssoc_fst {α β : Type} [DecidableEq α] (k : α) (f : β → β)
    (l : List (α × β)) : (updAssoc k f l).map Prod.fst = l.map Prod.fst := by
  induction l with
  | nil => rfl
  | cons p rest ih =>
    obtain ⟨k', v'⟩ := p
    simp only [updAssoc]
    by_cases hk : k = k'
    · rw [if_pos hk]; simp
    · rw [if_neg hk]; simp [ih]

/-- For duplicate-free keys, everything in `updAssoc k f l` is either an
untouched non-`k` entry of `l` or the updated `k` entry. -/
theorem updAssoc_forall_nodup {α β : Type} [DecidableEq α] (P : α × β → Prop)
    (k : α) (f : β → β) :
    ∀ (l : List (α × β)), (l.map Prod.fst).Nodup →
      (∀ p ∈ l, p.1 ≠ k → P p) → (∀ v, (k, v) ∈ l → P (k, f v)) →
      ∀ p ∈ updAssoc k f l, P p := by
  intro l
  induction l with
  | nil => intro _ _ _ p hp; exact absurd hp (List.not_mem_nil p)
  | cons q rest ih =>
    obtain ⟨k', v'⟩ := q
    intro hnd hne hupd p hp
    simp only [List.map_cons, List.nodup_cons] at hnd
    simp only [updAssoc] at hp
    by_cases hk : k = k'
    · rw [if_pos hk] at hp
      rcases List.mem_cons.1 hp with rfl | hp'
      · exact hk ▸ hupd v' (by simp [hk])
      · refine hne p (List.mem_cons_of_mem _ hp') ?_
        intro hpk
        exact hnd.1 (List.mem_map.2 ⟨p, hp', hpk.trans hk⟩)
    · rw [if_neg hk] at hp
      rcases List.mem_cons.1 hp with rfl | hp'
      · exact hne (k', v') (List.mem_cons_self _ _) (fun h => hk h.symm)
      · exact ih hnd.2 (fun q hq hqk => hne q (List.mem_cons_of_mem _ hq) hqk)
          (fun v hv => hupd v (List.mem_cons_of_mem _ hv)) p hp'

/-- The shape invariant maintained across the aggregation fold: series
keys are unique, each bucket's keys are unique, and every stored item has
at least one recorded date. -/
def SmapInv (smap : List (String × SeriesData)) : Prop :=
  (smap.map Prod.fst).Nodup ∧
  ∀ s ∈ smap, ((s : String × SeriesData).2.items.map Prod.fst).Nodup ∧
    ∀ p ∈ s.2.items, (p : Url × AggItem).2.dates ≠ []

/-- Unfolding equation of `processEntry` for a present href. -/
theorem processEntry_some (reg : List (Url × String)) (meta : List (String × SeriesMeta))
    (details : Url → Option ItemDetail) (iso : String)
    (smap : List (String × SeriesData)) (e : Entry) (u : Url) (he : e.href = some u) :
    processEntry reg meta details iso smap e =
      if allowed u then
        updAssoc (joinSeriesName reg u)
          (fun data =>
            { data with
                items := updAssoc u
                  (fun it => { it with dates := recordDates it.times e.time iso it.dates })
                  (if (alookup u data.items).isSome then data.items
                   else data.items ++
                     [(u, mkAggItem u e ((details u).getD (placeholderDetail e)))]) })
          (if (alookup (joinSeriesName reg u) smap).isSome then smap
           else smap ++ [((joinSeriesName reg u),
             { intro := ((alookup (joinSeriesName reg u) meta).map SeriesMeta.intro).getD "",
               banner := ((alookup (joinSeriesName reg u) meta).map SeriesMeta.banner).getD
                 none,
               items := [] })])
      else smap := by
  unfold processEntry
  rw [he]

theorem processEntry_inv (reg : List (Url × String)) (meta : List (String × SeriesMeta))
    (details : Url → Option ItemDetail) (iso : String)
    (smap : List (String × SeriesData)) (e : Entry) (hinv : SmapInv smap) :
    SmapInv (processEntry reg meta details iso smap e) := by
  obtain ⟨hkeys, hitems⟩ := hinv
  rcases he : e.href with _ | u
  · have heq : processEntry reg meta details iso smap e = smap := by
      unfold processEntry
      rw [he]
    rw [heq]
    exact ⟨hkeys, hitems⟩
  · rw [processEntry_some reg meta details iso smap e u he]
    by_cases hall : allowed u
    · rw [if_pos hall]
      have key : SmapInv (updAssoc (joinSeriesName reg u)
          (fun data =>
            { data with
                items := updAssoc u
                  (fun it => { it with dates := recordDates it.times e.time iso it.dates })
                  (if (alookup u data.items).isSome then data.items
                   else data.items ++
                     [(u, mkAggItem u e ((details u).getD (placeholderDetail e)))]) })
          (if (alookup (joinSeriesName reg u) smap).isSome then smap
           else smap ++ [((joinSeriesName reg u),
             { intro := ((alookup (joinSeriesName reg u) meta).map SeriesMeta.intro).getD "",
               banner := ((alookup (joinSeriesName reg u) meta).map SeriesMeta.banner).getD
                 none,
               items := [] })])) := by
        have hinv1 : SmapInv (if (alookup (joinSeriesName reg u) smap).isSome then smap
            else smap ++ [((joinSeriesName reg u),
              { intro := ((alookup (joinSeriesName reg u) meta).map SeriesMeta.intro).getD "",
                banner := ((alookup (joinSeriesName reg u) meta).map SeriesMeta.banner).getD
                  none,
                items := [] })]) := by
          by_cases hin : (alookup (joinSeriesName reg u) smap).isSome
          · rw [if_pos hin]
            exact ⟨hkeys, hitems⟩
          · rw [if_neg hin]
            constructor
            · rw [List.map_append, List.nodup_append]
              refine ⟨hkeys, by simp, ?_⟩
              intro x hx hx'
              simp only [List.map_cons, List.map_nil, List.mem_singleton] at hx'
              subst hx'
              rcases alookup_of_mem_keys _ smap hx with ⟨w, hw⟩
              rw [hw] at hin
              exact hin (by simp)
            · intro s hs
              rcases List.mem_append.1 hs with hs | hs
              · exact hitems s hs
              · rw [List.mem_singleton.1 hs]
                exact ⟨by simp, by simp⟩
        obtain ⟨h1keys, h1items⟩ := hinv1
        constructor
        · rw [updAssoc_fst]
          exact h1keys
        · intro s hs
          refine updAssoc_forall_nodup
            (fun s => (s.2.items.map Prod.fst).Nodup ∧ ∀ p ∈ s.2.items, p.2.dates ≠ [])
            (joinSeriesName reg u) _ _ h1keys (fun q hq _ => h1items q hq) ?_ s hs
          intro v hv
          obtain ⟨hvnd, hvitems⟩ := h1items _ hv
          have hbnd : ((if (alookup u v.items).isSome then v.items
              else v.items ++
                [(u, mkAggItem u e ((details u).getD (placeholderDetail e)))]).map
              Prod.fst).Nodup := by
            by_cases hu : (alookup u v.items).isSome
            · rw [if_pos hu]
              exact hvnd
            · rw [if_neg hu]
              rw [List.map_append, List.nodup_append]
              refine ⟨hvnd, by simp, ?_⟩
              intro x hx hx'
              simp only [List.map_cons, List.map_nil, List.mem_singleton] at hx'
              subst hx'
              rcases alookup_of_mem_keys _ v.items hx with ⟨w, hw⟩
              rw [hw] at hu
              exact hu (by simp)
          constructor
          · show ((updAssoc u _ _).map Prod.fst).Nodup
            rw [updAssoc_fst]
            exact hbnd
          · intro p hp
            refine updAssoc_forall_nodup (fun p => p.2.dates ≠ []) u _ _ hbnd ?_ ?_ p hp
            · intro q hq hqne
              by_cases hu : (alookup u v.items).isSome
              · rw [if_pos hu] at hq
                exact hvitems q hq
              · rw [if_neg hu] at hq
                rcases List.mem_append.1 hq with h1 | h1
                · exact hvitems q h1
                · rw [List.mem_singleton.1 h1] at hqne
                  exact absurd rfl hqne
            · intro w _
              exact recordDates_ne_nil _ _ _ _
      exact key
    · rw [if_neg hall]
      exact ⟨hkeys, hitems⟩

theorem foldl_processEntry_inv (reg : List (Url × String))
    (meta : List (String × SeriesMeta)) (details : Url → Option ItemDetail) (iso : String) :
    ∀ (es : List Entry) (smap : List (String × SeriesData)), SmapInv smap →
      SmapInv (es.foldl (processEntry reg meta details iso) smap) := by
  intro es
  induction es with
  | nil => intro smap h; exact h
  | cons e rest ih =>
    intro smap h
    simp only [List.foldl_cons]
    exact ih _ (processEntry_inv reg meta details iso smap e h)

theorem scanDays_inv (mode d_from : String) (d_to : Option String) (today : String)
    (year : Nat) (reg : List (Url × String)) (meta : List (String × SeriesMeta))
    (details : Url → Option ItemDetail) :
    ∀ (days : List DayBlock) (smap smap' : List (String × SeriesData)), SmapInv smap →
      scanDays mode d_from d_to today year reg meta details days smap = some smap' →
      SmapInv smap' := by
  intro days
  induction days with
  | nil =>
    intro smap smap' hinv h
    simp only [scanDays] at h
    rw [← Option.some_injective _ h]
    exact hinv
  | cons d rest ih =>
    intro smap smap' hinv h
    rcases hiso : iso_from_label d.label year with _ | iso
    · simp only [scanDays, hiso] at h
      exact ih smap smap' hinv h
    · simp only [scanDays, hiso] at h
      by_cases hmode : mode = "all"
      · rw [if_pos hmode] at h
        by_cases hlt : strLt iso today = true
        · rw [if_pos hlt] at h
          exact ih smap smap' hinv h
        · rw [if_neg hlt] at h
          exact ih _ smap' (foldl_processEntry_inv reg meta details iso d.entries smap hinv) h
      · rw [if_neg hmode] at h
        by_cases hfal : (d_from = "" || d_to = none || d_to = some "") = true
        · rw [if_pos hfal] at h
          exact absurd h (by simp)
        · rw [if_neg hfal] at h
          by_cases hrange : (!(strLe d_from iso && strLe iso (d_to.getD ""))) = true
          · rw [if_pos hrange] at h
            exact ih smap smap' hinv h
          · rw [if_neg hrange] at h
            exact ih _ smap'
              (foldl_processEntry_inv reg meta details iso d.entries smap hinv) h

/-- The invariant the total `first_dt`/`itemKey` model relies on: in every
successful response, every aggregated item carries at least one date, so
Python's unguarded `items[0]["dates"][0]` never faults and agrees with
the `itemKey` default. -/
theorem program_item_dates_nonempty (args : Args) (today : String) (year : Nat)
    (reg : List (Url × String)) (meta : List (String × SeriesMeta))
    (details : Url → Option ItemDetail) (days : List DayBlock)
    (series : List SeriesGroup)
    (h : program args today year reg meta details days = ProgResp.ok series) :
    ∀ g ∈ series, ∀ it ∈ g.items, it.dates ≠ [] := by
  unfold program at h
  replace h :
      (match scanDays (args.mode.getD ("all")) (args.fromArg.getD today) args.toArg today
          year reg meta details days [] with
        | none => ProgResp.badRequest
        | some smap => ProgResp.ok (buildOut smap)) = ProgResp.ok series := h
  rcases hs : scanDays (args.mode.getD ("all")) (args.fromArg.getD today) args.toArg today
      year reg meta details days [] with _ | smap
  · rw [hs] at h
    exact absurd h (by simp)
  · rw [hs] at h
    have hser : buildOut smap = series := by simpa using h
    have hinv : SmapInv smap :=
      scanDays_inv _ _ _ _ _ _ _ _ days [] smap ⟨by simp, by simp⟩ hs
    rw [← hser]
    intro g hg it hit
    rw [buildOut, mem_pySort] at hg
    rcases List.mem_filterMap.1 hg with ⟨p, hp, hsome⟩
    by_cases he : (p.2.items.map (fun q => { q.2 with dates := pySort strLe q.2.dates })).isEmpty
    · rw [if_pos he] at hsome
      exact absurd hsome (by simp)
    · rw [if_neg he] at hsome
      have hg' := (Option.some_injective _ hsome).symm
      rw [hg'] at hit
      replace hit : it ∈ pySort itemLe
          (p.2.items.map (fun q => { q.2 with dates := pySort strLe q.2.dates })) := hit
      rw [mem_pySort] at hit
      rcases List.mem_map.1 hit with ⟨q, hq, rfl⟩
      show pySort strLe q.2.dates ≠ []
      intro hnil
      have hperm := pySort_perm strLe q.2.dates
      rw [hnil] at hperm
      exact (hinv.2 p hp).2 q hq (List.Perm.eq_nil hperm.symm)

end Cinemateket
